import Mathlib

/-!
# Verification of the FRC season-map geocoder core

Shallow embedding of `src/frcmap/frcgeocoder/geocoder.py`.

Modelling conventions:
* Python field values are modelled by `Value` (null, number, string, boolean);
  floating-point numbers are modelled by exact rationals `ℚ`, matching the
  code's use of exact `==` comparison on coordinates.
* A Python `dict` of fields is an association list `List (String × Value)`
  with first-match lookup (`aget`), in-place overwrite on insert (`ainsert`)
  and `dict.update` semantics (`aupdate`), mirroring CPython's ordered dicts.
* Fallible code (a `KeyError` from a missing field, an aborted batch) is
  modelled with `Except Unit`.
* `random.gauss(mu, sigma)` is modelled as `mu + sigma * z` where `z` is
  drawn from an explicit stream of rationals threaded through the run; the
  stream parametrizes the sampled noise (the distributional law itself is
  outside the embedding).
* The external geocoding provider is a parameter
  `provider : String → Except Unit (List Dict)` returning the list of
  `geometry.location` dicts of the results (`Except.error` = the call or the
  result-field extraction raised); the event-detail enrichment collaborator
  is a parameter `enhance : Dict → Except Unit Dict`.
-/

set_option maxHeartbeats 1000000

namespace FrcMap

/-- A Python field value as it occurs in the geocoder's records. -/
inductive Value : Type where
  | null : Value
  | num : ℚ → Value
  | str : String → Value
  | bool : Bool → Value
deriving DecidableEq, Repr

/-- A Python `dict` of named fields, as an ordered association list. -/
abbrev Dict := List (String × Value)

/-- Decidable equality of `Except` results, for evaluating concrete runs. -/
instance exceptDecidableEq {ε α : Type} [DecidableEq ε] [DecidableEq α] :
    DecidableEq (Except ε α) := fun x y =>
  match x, y with
  | Except.error a, Except.error b =>
    if h : a = b then Decidable.isTrue (by rw [h])
    else Decidable.isFalse (by intro hc; cases hc; exact h rfl)
  | Except.ok a, Except.ok b =>
    if h : a = b then Decidable.isTrue (by rw [h])
    else Decidable.isFalse (by intro hc; cases hc; exact h rfl)
  | Except.error _, Except.ok _ => Decidable.isFalse (by intro hc; cases hc)
  | Except.ok _, Except.error _ => Decidable.isFalse (by intro hc; cases hc)

/-- First-match association lookup (`obj[key]` / `key in obj`). -/
def aget {κ α : Type} [DecidableEq κ] : List (κ × α) → κ → Option α
  | [], _ => none
  | (k2, v) :: rest, k => if k2 = k then some v else aget rest k

/-- `d[k] = v` on a Python dict: overwrite in place if present, else append. -/
def ainsert {κ α : Type} [DecidableEq κ] : List (κ × α) → κ → α → List (κ × α)
  | [], k, v => [(k, v)]
  | (k2, v2) :: rest, k, v =>
    if k2 = k then (k2, v) :: rest else (k2, v2) :: ainsert rest k v

/-- `d.update(other)` on Python dicts: later entries of `other` win. -/
def aupdate {κ α : Type} [DecidableEq κ] (d other : List (κ × α)) : List (κ × α) :=
  other.foldl (fun acc kv => ainsert acc kv.1 kv.2) d

/-- Remove every entry with the given key (used to state absent-field facts). -/
def eraseKey (d : Dict) (k : String) : Dict := d.filter (fun kv => kv.1 != k)

/-- Python truthiness of a field value (`if event["is_official"]:`). -/
def truthy : Value → Bool
  | Value.null => false
  | Value.num q => q ≠ 0
  | Value.str s => s ≠ ""
  | Value.bool b => b

/-- How a field value is rendered into an address string. The geocoder only
feeds string or null fields to its address builders; null never reaches this
point (`notNone` maps it to the empty string first). -/
def valueText : Value → String
  | Value.str s => s
  | Value.null => ""
  | Value.num q => toString q
  | Value.bool b => toString b

/-- `notNone` from the source: `value if value != None else ""`. -/
def notNone : Value → Value
  | Value.null => Value.str ""
  | v => v

/-- `read(obj, key)` from the source: the field's text, `""` when the key is
absent or the value is `None`. -/
def read (obj : Dict) (key : String) : String :=
  match aget obj key with
  | some v => valueText (notNone v)
  | none => ""

/-- Python `str.strip()`: trim whitespace from both ends only. -/
def pyStrip (s : String) : String :=
  String.mk (((s.toList.dropWhile Char.isWhitespace).reverse.dropWhile
    Char.isWhitespace).reverse)

/-- Helper for `pySplitWs`: split on whitespace runs, accumulating the
current word in reverse. -/
def pySplitGo : List Char → List Char → List String
  | [], [] => []
  | [], acc => [String.mk acc.reverse]
  | c :: cs, acc =>
    if Char.isWhitespace c then
      match acc with
      | [] => pySplitGo cs []
      | _ => String.mk acc.reverse :: pySplitGo cs []
    else pySplitGo cs (c :: acc)

/-- Python `str.split()` with no argument: split on whitespace runs,
discarding empty pieces. -/
def pySplitWs (s : String) : List String := pySplitGo s.toList []

/-- Python `" ".join(items)`. -/
def joinSp : List String → String
  | [] => ""
  | [s] => s
  | s :: rest => s ++ " " ++ joinSp rest

/-- `make_team_address` from the source: the five fields are interpolated
with single spaces, then `.split()`/`" ".join` collapses all whitespace. -/
def make_team_address (data : Dict) : Option String :=
  let addr := joinSp (pySplitWs
    (read data "school_name" ++ " " ++ read data "city" ++ " " ++
     read data "state_prov" ++ " " ++ read data "postal_code" ++ " " ++
     read data "country"))
  if addr = "" then none else some addr

/-- `make_event_address` from the source: the six fields are `" ".join`ed and
only the ends are stripped — interior whitespace is not collapsed. -/
def make_event_address (data : Dict) : Option String :=
  let addr := pyStrip (joinSp
    [read data "venue", read data "address", read data "city",
     read data "state_prov", read data "postal_code", read data "country"])
  if addr = "" then none else some addr

/-- `FRCGeocoder.UNKNOWN`: the canonical fully-null location sentinel. -/
def UNKNOWN : Dict := [("lat", Value.null), ("lng", Value.null)]

/-- `FRCGeocoder.__noloc`: `item["lat"] == None or item["lng"] == None`,
with Python's left-to-right short-circuit (if `lat` is `None` the `lng` key
is never touched) and a `KeyError` (`Except.error`) on a missing key. -/
def noloc (item : Dict) : Except Unit Bool :=
  match aget item "lat" with
  | none => Except.error ()
  | some la =>
    if la = Value.null then Except.ok true
    else
      match aget item "lng" with
      | none => Except.error ()
      | some ln => Except.ok (ln = Value.null)

/-- Numeric field access, as needed by `random.gauss(obj[k], sigma)`:
anything but a number raises. -/
def getNum (item : Dict) (k : String) : Except Unit ℚ :=
  match aget item k with
  | some (Value.num q) => Except.ok q
  | _ => Except.error ()

/-- Draw the next noise sample from the stream (0 once exhausted). -/
def draw : List ℚ → ℚ × List ℚ
  | [] => (0, [])
  | z :: zs => (z, zs)

/-- The default jitter width `sigma=0.001` of `__randomnize_location`. -/
def sigma : ℚ := 1 / 1000

/-- `random.gauss(mu, sigma)` modelled on a drawn standardized sample `z`:
a value with mean `mu` and standard deviation `sigma`. -/
def gauss (mu sg z : ℚ) : ℚ := mu + sg * z

/-- `FRCGeocoder.__randomnize_location`: replace `lat` and then `lng` by
independent Gaussian perturbations centred on their current values. -/
def randomnize_location (obj : Dict) (zs : List ℚ) : Except Unit (Dict × List ℚ) :=
  match getNum obj "lat" with
  | Except.error _ => Except.error ()
  | Except.ok la =>
    let p1 := draw zs
    let obj1 := ainsert obj "lat" (Value.num (gauss la sigma p1.1))
    match getNum obj1 "lng" with
    | Except.error _ => Except.error ()
    | Except.ok ln =>
      let p2 := draw p1.2
      Except.ok (ainsert obj1 "lng" (Value.num (gauss ln sigma p2.1)), p2.2)

/-- `location_tuple(item)` from `__dedup_locations`: the `(lat, lng)` pair. -/
def location_tuple (item : Dict) : Except Unit (Value × Value) :=
  match aget item "lat", aget item "lng" with
  | some a, some b => Except.ok (a, b)
  | _, _ => Except.error ()

/-- `FRCGeocoder.__dedup_locations`, iterating the batch in order and
threading the `ulocs` map of already-claimed coordinate pairs and the noise
stream. Besides the rewritten batch it returns the list of perturbed
identifiers (the keys named in the collision warnings, in order). -/
def dedupGo : List (String × Dict) → List ((Value × Value) × String) → List ℚ →
    Except Unit (List (String × Dict) × List String × List ℚ)
  | [], _, zs => Except.ok ([], [], zs)
  | (key, obj) :: rest, ulocs, zs =>
    match noloc obj with
    | Except.error _ => Except.error ()
    | Except.ok true =>
      match dedupGo rest ulocs zs with
      | Except.error _ => Except.error ()
      | Except.ok (rest2, per, zs2) => Except.ok ((key, obj) :: rest2, per, zs2)
    | Except.ok false =>
      match location_tuple obj with
      | Except.error _ => Except.error ()
      | Except.ok loc =>
        match aget ulocs loc with
        | some _ =>
          match randomnize_location obj zs with
          | Except.error _ => Except.error ()
          | Except.ok (obj2, zs2) =>
            match dedupGo rest ulocs zs2 with
            | Except.error _ => Except.error ()
            | Except.ok (rest2, per, zs3) =>
              Except.ok ((key, obj2) :: rest2, key :: per, zs3)
        | none =>
          match dedupGo rest (ainsert ulocs loc key) zs with
          | Except.error _ => Except.error ()
          | Except.ok (rest2, per, zs2) => Except.ok ((key, obj) :: rest2, per, zs2)

/-- `__dedup_locations` on a whole batch (the `obj_type` argument of the
source only labels log lines and is omitted). -/
def dedup_locations (objects : List (String × Dict)) (zs : List ℚ) :
    Except Unit (List (String × Dict) × List String × List ℚ) :=
  dedupGo objects [] zs

/-- The `{lat, lng}` projection used when saving an archive. -/
def projectLoc (v0 : Dict) : Dict :=
  v0.filter (fun kv => kv.1 == "lat" || kv.1 == "lng")

/-- The archive payload built by `__save_team_archive`/`__save_event_archive`:
entities with no location are dropped, the rest are projected to `lat`/`lng`. -/
def save_archive_data : List (String × Dict) → Except Unit (List (String × Dict))
  | [] => Except.ok []
  | (k, v) :: rest =>
    match noloc v with
    | Except.error _ => Except.error ()
    | Except.ok nl =>
      match save_archive_data rest with
      | Except.error _ => Except.error ()
      | Except.ok rest2 =>
        Except.ok (if nl then rest2 else (k, projectLoc v) :: rest2)

/-- The year-stamped team archive file name. -/
def team_archive_name (year : ℕ) : String :=
  "all_team_locations_" ++ toString year ++ ".json"

/-- The fixed cumulative event archive file name. -/
def event_archive_name : String := "all_event_locations.json"

/-- `__save_team_archive`: the written file as (name, payload). -/
def save_team_archive (teams : List (String × Dict)) (year : ℕ) :
    Except Unit (String × List (String × Dict)) :=
  (save_archive_data teams).map (fun d => (team_archive_name year, d))

/-- `__save_event_archive`: the written file as (name, payload). -/
def save_event_archive (events : List (String × Dict)) :
    Except Unit (String × List (String × Dict)) :=
  (save_archive_data events).map (fun d => (event_archive_name, d))

/-- `FRCGeocoder.__geolocate_team`. The log lines read `team['key']`
(uncaught `KeyError` when absent); a missing address records `UNKNOWN`; the
provider is called once and its first result merged in; any provider failure
(exception or empty result list) records `UNKNOWN`. Returns the record and
the list of addresses sent to the provider. -/
def geolocate_team (provider : String → Except Unit (List Dict)) (team : Dict) :
    Except Unit (Dict × List String) :=
  match aget team "key" with
  | none => Except.error ()
  | some _ =>
    match make_team_address team with
    | none => Except.ok (aupdate team UNKNOWN, [])
    | some addr =>
      match provider addr with
      | Except.ok (loc :: _) => Except.ok (aupdate team loc, [addr])
      | _ => Except.ok (aupdate team UNKNOWN, [addr])

/-- `FRCGeocoder.__geolocate_event`, same shape as `geolocate_team`. -/
def geolocate_event (provider : String → Except Unit (List Dict)) (event : Dict) :
    Except Unit (Dict × List String) :=
  match aget event "key" with
  | none => Except.error ()
  | some _ =>
    match make_event_address event with
    | none => Except.ok (aupdate event UNKNOWN, [])
    | some addr =>
      match provider addr with
      | Except.ok (loc :: _) => Except.ok (aupdate event loc, [addr])
      | _ => Except.ok (aupdate event UNKNOWN, [addr])

/-- One iteration of the resolution loop of `populate_team_locations`:
override wins, else archive, else a live geocoding attempt. -/
def resolve_team (ov ar : List (String × Dict))
    (provider : String → Except Unit (List Dict)) (kt : String × Dict) :
    Except Unit ((String × Dict) × List String) :=
  match aget ov kt.1 with
  | some o => Except.ok ((kt.1, aupdate kt.2 o), [])
  | none =>
    match aget ar kt.1 with
    | some a => Except.ok ((kt.1, aupdate kt.2 a), [])
    | none =>
      match geolocate_team provider kt.2 with
      | Except.error _ => Except.error ()
      | Except.ok (t2, tr) => Except.ok ((kt.1, t2), tr)

/-- The resolution loop of `populate_team_locations` over the whole batch,
collecting the provider-call trace. -/
def resolve_teams (ov ar : List (String × Dict))
    (provider : String → Except Unit (List Dict)) :
    List (String × Dict) → Except Unit (List (String × Dict) × List String)
  | [] => Except.ok ([], [])
  | kt :: rest =>
    match resolve_team ov ar provider kt with
    | Except.error _ => Except.error ()
    | Except.ok (kt2, tr) =>
      match resolve_teams ov ar provider rest with
      | Except.error _ => Except.error ()
      | Except.ok (rest2, trs) => Except.ok (kt2 :: rest2, tr ++ trs)

/-- The outcome of `populate_team_locations`: the mutated batch, the written
archive file, the provider-call trace, the perturbed keys, the remaining
noise stream. -/
structure TeamRun where
  teams : List (String × Dict)
  savedName : String
  saved : List (String × Dict)
  trace : List String
  perturbed : List String
  rest : List ℚ
deriving DecidableEq, Repr

/-- `FRCGeocoder.populate_team_locations`: resolve every team
(override → archive → live geocoding), then dedup the batch, then save the
team archive from the deduplicated records. -/
def populate_team_locations (ov ar : List (String × Dict))
    (provider : String → Except Unit (List Dict))
    (teams : List (String × Dict)) (year : ℕ) (zs : List ℚ) :
    Except Unit TeamRun :=
  match resolve_teams ov ar provider teams with
  | Except.error _ => Except.error ()
  | Except.ok (resolved, trace) =>
    match dedup_locations resolved zs with
    | Except.error _ => Except.error ()
    | Except.ok (deduped, per, zs2) =>
      match save_archive_data deduped with
      | Except.error _ => Except.error ()
      | Except.ok saved =>
        Except.ok ⟨deduped, team_archive_name year, saved, trace, per, zs2⟩

/-- The override merge at the top of the `populate_event_locations` loop. -/
def mergedOv (ov : List (String × Dict)) (k : String) (r : Dict) : Dict :=
  match aget ov k with
  | some o => aupdate r o
  | none => r

/-- The body of the `if self.__noloc(event):` block of
`populate_event_locations`. The archive branch of the source reads
`events.update(self.event_archive[key])` — it merges the archived location
into the *batch dict*, not into the event record; the record is unchanged,
and in CPython a nonempty archive entry grows the dict being iterated, so
the loop's next step raises `RuntimeError` (modelled by the returned dirty
flag). Exceptions from the enrichment collaborator or from
`__geolocate_event` are caught and leave the record at its current state. -/
def eventResolve (ar : List (String × Dict)) (enhance : Dict → Except Unit Dict)
    (provider : String → Except Unit (List Dict)) (k : String) (event : Dict) :
    Dict × List String × Bool :=
  match aget ar k with
  | some a => (event, [], !a.isEmpty)
  | none =>
    match aget event "is_official" with
    | some v =>
      if truthy v then
        match enhance event with
        | Except.error _ => (event, [], false)
        | Except.ok e2 =>
          match geolocate_event provider e2 with
          | Except.error _ => (e2, [], false)
          | Except.ok (e3, tr) => (e3, tr, false)
      else (event, [], false)
    | none => (event, [], false)

/-- One iteration of the `populate_event_locations` loop: override merge,
the no-location fallback block, then the final no-location check that sets
`ignore = True`. -/
def eventStep (ov ar : List (String × Dict)) (enhance : Dict → Except Unit Dict)
    (provider : String → Except Unit (List Dict)) (k : String) (event0 : Dict) :
    Except Unit (Dict × List String × Bool) :=
  let event1 := mergedOv ov k event0
  match noloc event1 with
  | Except.error _ => Except.error ()
  | Except.ok false => Except.ok (event1, [], false)
  | Except.ok true =>
    match eventResolve ar enhance provider k event1 with
    | (e2, tr, dirty) =>
      match noloc e2 with
      | Except.error _ => Except.error ()
      | Except.ok true => Except.ok (ainsert e2 "ignore" (Value.bool true), tr, dirty)
      | Except.ok false => Except.ok (e2, tr, dirty)

/-- The `populate_event_locations` loop over the whole batch. A dirty step
(the source's stray `events.update`) invalidates the dict iterator, so the
next `__next__` call — which CPython performs even when the batch is
exhausted — raises `RuntimeError` and aborts the loop. -/
def eventsGo (ov ar : List (String × Dict)) (enhance : Dict → Except Unit Dict)
    (provider : String → Except Unit (List Dict)) :
    List (String × Dict) → Except Unit (List (String × Dict) × List String)
  | [] => Except.ok ([], [])
  | (k, e) :: rest =>
    match eventStep ov ar enhance provider k e with
    | Except.error _ => Except.error ()
    | Except.ok (e2, tr, dirty) =>
      if dirty then Except.error ()
      else
        match eventsGo ov ar enhance provider rest with
        | Except.error _ => Except.error ()
        | Except.ok (rest2, trs) => Except.ok ((k, e2) :: rest2, tr ++ trs)

/-- The outcome of `populate_event_locations`. -/
structure EventRun where
  events : List (String × Dict)
  savedName : String
  saved : List (String × Dict)
  trace : List String
  perturbed : List String
  rest : List ℚ
deriving DecidableEq, Repr

/-- `FRCGeocoder.populate_event_locations`: resolve every event, then save
the event archive from the resolved records, then dedup the batch — the
archive is written before the jitter, unlike the team pipeline. -/
def populate_event_locations (ov ar : List (String × Dict))
    (enhance : Dict → Except Unit Dict)
    (provider : String → Except Unit (List Dict))
    (events : List (String × Dict)) (zs : List ℚ) :
    Except Unit EventRun :=
  match eventsGo ov ar enhance provider events with
  | Except.error _ => Except.error ()
  | Except.ok (resolved, trace) =>
    match save_archive_data resolved with
    | Except.error _ => Except.error ()
    | Except.ok saved =>
      match dedup_locations resolved zs with
      | Except.error _ => Except.error ()
      | Except.ok (deduped, per, zs2) =>
        Except.ok ⟨deduped, event_archive_name, saved, trace, per, zs2⟩

/-- The filename match of `__read_team_archive`:
`re.match(r"all_team_locations_(\d\d\d\d).json", file)` — an unanchored
prefix match whose `.` accepts any character; returns the parsed year. -/
def parse_team_archive_name (s : String) : Option ℕ :=
  if s.toList.take 19 = "all_team_locations_".toList then
    match s.toList.drop 19 with
    | d1 :: d2 :: d3 :: d4 :: _dot :: j :: s2 :: o :: n :: _ =>
      if d1.isDigit && d2.isDigit && d3.isDigit && d4.isDigit &&
          ([j, s2, o, n] = "json".toList : Bool) then
        some ((d1.toNat - 48) * 1000 + (d2.toNat - 48) * 100 +
          (d3.toNat - 48) * 10 + (d4.toNat - 48))
      else none
    | _ => none
  else none

/-- The `years` dict built by `__read_team_archive`: year → file content,
later files with the same parsed year overwriting earlier ones. -/
def archiveYears (files : List (String × List (String × Dict))) :
    List (ℕ × List (String × Dict)) :=
  files.foldl (fun acc fc =>
    match parse_team_archive_name fc.1 with
    | some y => ainsert acc y fc.2
    | none => acc) []

/-- `FRCGeocoder.__read_team_archive` over a directory listing of
(file name, parsed JSON content) pairs: collect year → content with dict
overwrite semantics, open the file of the maximum year, or return the empty
archive when nothing matches. -/
def read_team_archive (files : List (String × List (String × Dict))) :
    List (String × Dict) :=
  let years := archiveYears files
  match (years.map Prod.fst).max? with
  | some y => (aget years y).getD []
  | none => []

/-! ## Specification-side helper definitions -/

/-- The coordinate pair of a record that dedup considers live: `some (lat,
lng)` when `__noloc` is false, `none` for skipped (UNKNOWN or half-null)
records. -/
def livePair (item : Dict) : Option (Value × Value) :=
  match noloc item with
  | Except.ok false =>
    match aget item "lat", aget item "lng" with
    | some a, some b => some (a, b)
    | _, _ => none
  | _ => none

/-- The live coordinate pairs of a batch, in iteration order. -/
def pairsOf (batch : List (String × Dict)) : List (Value × Value) :=
  batch.filterMap (fun kr => livePair kr.2)

/-- Whether the `i`-th entity collides: it has a live pair that was already
seen (`seen` holds the pairs claimed before this batch suffix) or equals the
live pair of an earlier-iterated entity of the batch. -/
def collideB (seen : List (Value × Value)) (batch : List (String × Dict)) (i : ℕ) : Bool :=
  match batch[i]? with
  | some kr =>
    match livePair kr.2 with
    | some p => decide (p ∈ seen) || decide (p ∈ pairsOf (batch.take i))
    | none => false
  | none => false

/-- The key of the `i`-th entity when it collides, else `none`. -/
def collideKeyAt (seen : List (Value × Value)) (batch : List (String × Dict)) (i : ℕ) :
    Option String :=
  match batch[i]? with
  | some kr => if collideB seen batch i then some kr.1 else none
  | none => none

/-- The keys of the colliding entities, in iteration order. -/
def collidedKeysSeen (seen : List (Value × Value)) (batch : List (String × Dict)) :
    List String :=
  (List.range batch.length).filterMap (collideKeyAt seen batch)

/-- The keys of the entities whose pre-dedup live pair equals the live pair
of an earlier-iterated entity — determined by the pre-dedup state and the
iteration order alone. -/
def collidedKeys (batch : List (String × Dict)) : List String :=
  collidedKeysSeen [] batch

/-- Whether an optional field value is a number. -/
def isNumV : Option Value → Bool
  | some (Value.num _) => true
  | _ => false

/-- The location invariant: `lat`/`lng` both null or both numbers. -/
def wellLocB (r : Dict) : Bool :=
  (aget r "lat" == some Value.null && aget r "lng" == some Value.null) ||
  (isNumV (aget r "lat") && isNumV (aget r "lng"))

/-- A well-shaped override/archive entry: unique keys and numeric `lat` and
`lng` fields (a full location pair). -/
def fullLocB (o : Dict) : Bool :=
  decide (o.map Prod.fst).Nodup && isNumV (aget o "lat") && isNumV (aget o "lng")

/-- A record on which `__noloc` raises `KeyError`: the `lat` key is missing,
or `lat` is non-null and the `lng` key is missing. -/
def badLoc (d : Dict) : Prop :=
  aget d "lat" = none ∨
  (∃ v, aget d "lat" = some v ∧ v ≠ Value.null ∧ aget d "lng" = none)

/-- A geocoding provider whose every call raises. -/
def failProv : String → Except Unit (List Dict) := fun _ => Except.error ()

/-- A geocoding provider whose every call returns the empty result list. -/
def emptyProv : String → Except Unit (List Dict) := fun _ => Except.ok []

/-- An enrichment collaborator that adds nothing and never fails. -/
def okEnh : Dict → Except Unit Dict := fun d => Except.ok d

/-! Concrete inputs for the counterexample and witness theorems. -/

/-- C1 failing input: event archive holding a location for event `e1`. -/
def c1ar : List (String × Dict) := [("e1", [("lat", Value.num 10), ("lng", Value.num 20)])]

/-- C1 failing input: one unlocated event `e1`. -/
def c1events : List (String × Dict) :=
  [("e1", [("key", Value.str "e1"), ("lat", Value.null), ("lng", Value.null)])]

/-- C2 counterexample: an override carrying only a `lat` field. -/
def c2ov : List (String × Dict) := [("t1", [("lat", Value.num 10)])]

/-- C2 counterexample: one unlocated team `t1`. -/
def c2teams : List (String × Dict) :=
  [("t1", [("key", Value.str "t1"), ("lat", Value.null), ("lng", Value.null)])]

/-- C3 counterexample: override placing team `b` at (10, 20). -/
def c3ov : List (String × Dict) := [("b", [("lat", Value.num 10), ("lng", Value.num 20)])]

/-- C3 counterexample: archive placing team `a` at the same (10, 20). -/
def c3ar : List (String × Dict) := [("a", [("lat", Value.num 10), ("lng", Value.num 20)])]

/-- C3 counterexample: teams `a` then `b`, both initially unlocated. -/
def c3teams : List (String × Dict) :=
  [("a", [("key", Value.str "a"), ("lat", Value.null), ("lng", Value.null)]),
   ("b", [("key", Value.str "b"), ("lat", Value.null), ("lng", Value.null)])]

/-- C10 counterexample: event record with `lat = null` and no `lng` key. -/
def c10events : List (String × Dict) := [("e1", [("key", Value.str "e1"), ("lat", Value.null)])]

/-- C4 witness: colliding batch — `a` and `b` share (10, 20), `u` is UNKNOWN. -/
def c4batch : List (String × Dict) :=
  [("a", [("lat", Value.num 10), ("lng", Value.num 20)]),
   ("b", [("lat", Value.num 10), ("lng", Value.num 20)]),
   ("u", [("lat", Value.null), ("lng", Value.null)])]

/-- C4 witness: the deduplicated batch for noise stream `[3, 4]`. -/
def c4out : List (String × Dict) × List String × List ℚ :=
  ([("a", [("lat", Value.num 10), ("lng", Value.num 20)]),
    ("b", [("lat", Value.num (gauss 10 sigma 3)), ("lng", Value.num (gauss 20 sigma 4))]),
    ("u", [("lat", Value.null), ("lng", Value.null)])],
   ["b"], [])

/-- C3: the run outcome — `b`'s overridden location is perturbed by dedup
because archived team `a` (iterated earlier) holds the same exact pair. -/
def c3run : TeamRun :=
  ⟨[("a", [("key", Value.str "a"), ("lat", Value.num 10), ("lng", Value.num 20)]),
    ("b", [("key", Value.str "b"), ("lat", Value.num (gauss 10 sigma 1)),
           ("lng", Value.num (gauss 20 sigma 1))])],
   "all_team_locations_2024.json",
   [("a", [("lat", Value.num 10), ("lng", Value.num 20)]),
    ("b", [("lat", Value.num (gauss 10 sigma 1)), ("lng", Value.num (gauss 20 sigma 1))])],
   [], ["b"], []⟩

/-- C3 amended-claim witness: a single overridden team with no collision. -/
def c3wov : List (String × Dict) := [("x", [("lat", Value.num 1), ("lng", Value.num 2)])]

/-- C3 amended-claim witness: the batch. -/
def c3wteams : List (String × Dict) :=
  [("x", [("key", Value.str "x"), ("lat", Value.null), ("lng", Value.null)])]

/-- C3 amended-claim witness: the run outcome. -/
def c3wrun : TeamRun :=
  ⟨[("x", [("key", Value.str "x"), ("lat", Value.num 1), ("lng", Value.num 2)])],
   "all_team_locations_2024.json",
   [("x", [("lat", Value.num 1), ("lng", Value.num 2)])],
   [], [], []⟩

/-- C5: team overrides placing `p` and `q` on the same exact pair. -/
def c5ov : List (String × Dict) :=
  [("p", [("lat", Value.num 50), ("lng", Value.num 60)]),
   ("q", [("lat", Value.num 50), ("lng", Value.num 60)])]

/-- C5: the team batch. -/
def c5teams : List (String × Dict) :=
  [("p", [("key", Value.str "p"), ("lat", Value.null), ("lng", Value.null)]),
   ("q", [("key", Value.str "q"), ("lat", Value.null), ("lng", Value.null)])]

/-- C5: the resolved (pre-dedup) team batch. -/
def c5resolvedTeams : List (String × Dict) :=
  [("p", [("key", Value.str "p"), ("lat", Value.num 50), ("lng", Value.num 60)]),
   ("q", [("key", Value.str "q"), ("lat", Value.num 50), ("lng", Value.num 60)])]

/-- C5: what saving the pre-dedup team batch would write. -/
def c5preSave : List (String × Dict) :=
  [("p", [("lat", Value.num 50), ("lng", Value.num 60)]),
   ("q", [("lat", Value.num 50), ("lng", Value.num 60)])]

/-- C5: the team run — the saved archive holds `q`'s jittered pair. -/
def c5teamRun : TeamRun :=
  ⟨[("p", [("key", Value.str "p"), ("lat", Value.num 50), ("lng", Value.num 60)]),
    ("q", [("key", Value.str "q"), ("lat", Value.num (gauss 50 sigma 1)),
           ("lng", Value.num (gauss 60 sigma 1))])],
   "all_team_locations_2024.json",
   [("p", [("lat", Value.num 50), ("lng", Value.num 60)]),
    ("q", [("lat", Value.num (gauss 50 sigma 1)), ("lng", Value.num (gauss 60 sigma 1))])],
   [], ["q"], []⟩

/-- C5: event overrides placing `e` and `f` on the same exact pair. -/
def c5eov : List (String × Dict) :=
  [("e", [("lat", Value.num 50), ("lng", Value.num 60)]),
   ("f", [("lat", Value.num 50), ("lng", Value.num 60)])]

/-- C5: the event batch. -/
def c5events : List (String × Dict) :=
  [("e", [("key", Value.str "e"), ("lat", Value.null), ("lng", Value.null)]),
   ("f", [("key", Value.str "f"), ("lat", Value.null), ("lng", Value.null)])]

/-- C5: the resolved (pre-dedup) event batch. -/
def c5eresolved : List (String × Dict) :=
  [("e", [("key", Value.str "e"), ("lat", Value.num 50), ("lng", Value.num 60)]),
   ("f", [("key", Value.str "f"), ("lat", Value.num 50), ("lng", Value.num 60)])]

/-- C5: the event run — the saved archive holds the pre-jitter pairs even
though `f`'s final record is jittered. -/
def c5eventRun : EventRun :=
  ⟨[("e", [("key", Value.str "e"), ("lat", Value.num 50), ("lng", Value.num 60)]),
    ("f", [("key", Value.str "f"), ("lat", Value.num (gauss 50 sigma 1)),
           ("lng", Value.num (gauss 60 sigma 1))])],
   "all_event_locations.json",
   [("e", [("lat", Value.num 50), ("lng", Value.num 60)]),
    ("f", [("lat", Value.num 50), ("lng", Value.num 60)])],
   [], ["f"], []⟩

/-- C5: what saving the post-dedup event batch would write instead. -/
def c5postSave : List (String × Dict) :=
  [("e", [("lat", Value.num 50), ("lng", Value.num 60)]),
   ("f", [("lat", Value.num (gauss 50 sigma 1)), ("lng", Value.num (gauss 60 sigma 1))])]

/-- C10 counterexample: the completed run for a record with `lat = null`
and no `lng` key — no KeyError, the event is merely ignored. -/
def c10run : EventRun :=
  ⟨[("e1", [("key", Value.str "e1"), ("lat", Value.null), ("ignore", Value.bool true)])],
   "all_event_locations.json", [], [], [], []⟩

/-- C2 counterexample: the completed run for a partial override — `t1`
ends half-filled (numeric lat, null lng). -/
def c2run : TeamRun :=
  ⟨[("t1", [("key", Value.str "t1"), ("lat", Value.num 10), ("lng", Value.null)])],
   "all_team_locations_2024.json", [], [], [], []⟩

/-- C2 amended-claim witness: a full override for team `t`. -/
def c2wov : List (String × Dict) := [("t", [("lat", Value.num 1), ("lng", Value.num 2)])]

/-- C2 amended-claim witness: the team batch. -/
def c2wteams : List (String × Dict) :=
  [("t", [("key", Value.str "t"), ("lat", Value.null), ("lng", Value.null)])]

/-- C2 amended-claim witness: the team run outcome. -/
def c2wrun : TeamRun :=
  ⟨[("t", [("key", Value.str "t"), ("lat", Value.num 1), ("lng", Value.num 2)])],
   "all_team_locations_2024.json",
   [("t", [("lat", Value.num 1), ("lng", Value.num 2)])], [], [], []⟩

/-- C2 amended-claim witness: one unofficial, unlocated event. -/
def c2wevents : List (String × Dict) :=
  [("x", [("key", Value.str "x"), ("lat", Value.null), ("lng", Value.null)])]

/-- C2 amended-claim witness: the event run outcome. -/
def c2werun : EventRun :=
  ⟨[("x", [("key", Value.str "x"), ("lat", Value.null), ("lng", Value.null),
           ("ignore", Value.bool true)])],
   "all_event_locations.json", [], [], [], []⟩

/-- C6: the record whose event address carries a repeated separator. -/
def c6d : Dict := [("venue", Value.str "V"), ("city", Value.str "C")]

/-- C7 witness: a located entity with an extra field plus an UNKNOWN one. -/
def c7entities : List (String × Dict) :=
  [("a", [("key", Value.str "a"), ("lat", Value.num 1), ("lng", Value.num 2)]),
   ("u", [("key", Value.str "u"), ("lat", Value.null), ("lng", Value.null)])]

/-- C7 witness: the saved payload — `a` projected, `u` dropped. -/
def c7saved : List (String × Dict) := [("a", [("lat", Value.num 1), ("lng", Value.num 2)])]

/-- C8 witness: archive contents for 2021. -/
def c8a : List (String × Dict) := [("t", [("lat", Value.num 1), ("lng", Value.num 2)])]

/-- C8 witness: archive contents for 2022. -/
def c8b : List (String × Dict) := [("t", [("lat", Value.num 3), ("lng", Value.num 4)])]

/-- C8 witness: a listing with year files for 2021 and 2022. -/
def c8files : List (String × List (String × Dict)) :=
  [("all_team_locations_2021.json", c8a), ("all_team_locations_2022.json", c8b)]

/-- C8 witness: a listing with no matching file. -/
def c8none : List (String × List (String × Dict)) := [("readme.txt", c8a)]

/-- C9 witness: one team with an address but no override/archive entry. -/
def c9teams : List (String × Dict) :=
  [("t1", [("key", Value.str "t1"), ("school_name", Value.str "S")])]

/-- C9 witness: the run outcome when the provider returns no results. -/
def c9run : TeamRun :=
  ⟨[("t1", [("key", Value.str "t1"), ("school_name", Value.str "S"),
            ("lat", Value.null), ("lng", Value.null)])],
   "all_team_locations_2024.json", [], ["S"], [], []⟩

/-! ## Association-list lemmas -/

theorem aget_ainsert {κ α : Type} [DecidableEq κ] (l : List (κ × α)) (k k2 : κ) (v : α) :
    aget (ainsert l k v) k2 = if k2 = k then some v else aget l k2 := by
  induction l with
  | nil =>
    by_cases h : k2 = k
    · subst h; simp [ainsert, aget]
    · have h' : ¬ k = k2 := Ne.symm h
      simp [ainsert, aget, h, h']
  | cons kv rest ih =>
    obtain ⟨k0, v0⟩ := kv
    by_cases h0 : k = k0
    · subst h0
      by_cases h : k2 = k
      · subst h; simp [ainsert, aget]
      · have h' : ¬ k = k2 := Ne.symm h
        simp [ainsert, aget, h, h']
    · have h0' : ¬ k0 = k := Ne.symm h0
      by_cases h : k2 = k0
      · subst h
        simp [ainsert, aget, h0', Ne.symm h0]
      · have h' : ¬ k0 = k2 := Ne.symm h
        simp [ainsert, aget, h0', h, h', ih]

theorem aupdate_nil {κ α : Type} [DecidableEq κ] (d : List (κ × α)) :
    aupdate d [] = d := rfl

theorem aupdate_cons {κ α : Type} [DecidableEq κ] (d : List (κ × α)) (kv : κ × α)
    (rest : List (κ × α)) :
    aupdate d (kv :: rest) = aupdate (ainsert d kv.1 kv.2) rest := rfl

theorem aget_aupdate_of_none {κ α : Type} [DecidableEq κ] (o : List (κ × α)) :
    ∀ (d : List (κ × α)) (k : κ), aget o k = none → aget (aupdate d o) k = aget d k := by
  induction o with
  | nil => intro d k _; rfl
  | cons kv rest ih =>
    intro d k h
    obtain ⟨k0, v0⟩ := kv
    have h0 : ¬ k0 = k := by
      intro hc
      simp [aget, hc] at h
    have h' : aget rest k = none := by
      simpa [aget, h0] using h
    rw [aupdate_cons, ih _ k h', aget_ainsert]
    simp [Ne.symm h0]

theorem aget_some_mem {κ α : Type} [DecidableEq κ] (l : List (κ × α)) (k : κ) (v : α)
    (h : aget l k = some v) : (k, v) ∈ l := by
  induction l with
  | nil => simp [aget] at h
  | cons kv rest ih =>
    obtain ⟨k0, v0⟩ := kv
    by_cases h0 : k0 = k
    · subst h0
      simp [aget] at h
      simp [h]
    · have h' : aget rest k = some v := by
        simpa [aget, h0] using h
      exact List.mem_cons_of_mem _ (ih h')

theorem aget_aupdate_of_isSome {κ α : Type} [DecidableEq κ] (o : List (κ × α)) :
    ∀ (d : List (κ × α)) (k : κ), (o.map Prod.fst).Nodup → (aget o k).isSome →
      aget (aupdate d o) k = aget o k := by
  induction o with
  | nil => intro d k _ h; simp [aget] at h
  | cons kv rest ih =>
    intro d k hnd hs
    obtain ⟨k0, v0⟩ := kv
    simp only [List.map_cons, List.nodup_cons] at hnd
    rw [aupdate_cons]
    by_cases h0 : k0 = k
    · have hrest : aget rest k = none := by
        cases hr : aget rest k with
        | none => rfl
        | some v =>
          have hm : k ∈ rest.map Prod.fst :=
            List.mem_map.mpr ⟨_, aget_some_mem rest k v hr, rfl⟩
          exact absurd (by rw [h0]; exact hm) hnd.1
      rw [aget_aupdate_of_none rest _ k hrest, aget_ainsert, if_pos h0.symm]
      simp [aget, h0]
    · have hs' : (aget rest k).isSome := by
        simpa [aget, h0] using hs
      rw [ih _ k hnd.2 hs']
      simp [aget, h0]

theorem aget_ainsert_self {κ α : Type} [DecidableEq κ] (l : List (κ × α)) (k : κ) (v : α) :
    aget (ainsert l k v) k = some v := by
  rw [aget_ainsert, if_pos rfl]

theorem aget_ainsert_other {κ α : Type} [DecidableEq κ] (l : List (κ × α)) {k k2 : κ}
    (h : k2 ≠ k) (v : α) : aget (ainsert l k v) k2 = aget l k2 := by
  rw [aget_ainsert, if_neg h]

theorem aget_isSome_iff_mem_keys {κ α : Type} [DecidableEq κ] (l : List (κ × α)) (k : κ) :
    (aget l k).isSome = true ↔ k ∈ l.map Prod.fst := by
  induction l with
  | nil => simp [aget]
  | cons kv rest ih =>
    obtain ⟨k0, v0⟩ := kv
    by_cases h0 : k0 = k
    · simp [aget, h0]
    · have h0' : ¬ k = k0 := Ne.symm h0
      simp [aget, h0, h0', ih]

/-! ## Location-field lemmas -/

theorem noloc_of_lat_null {r : Dict} (h : aget r "lat" = some Value.null) :
    noloc r = Except.ok true := by
  simp [noloc, h]

theorem noloc_num {r : Dict} {a b : ℚ} (hla : aget r "lat" = some (Value.num a))
    (hlb : aget r "lng" = some (Value.num b)) : noloc r = Except.ok false := by
  simp [noloc, hla, hlb]

theorem noloc_false_iff {r : Dict} :
    noloc r = Except.ok false ↔
      ∃ a b, aget r "lat" = some a ∧ a ≠ Value.null ∧
        aget r "lng" = some b ∧ b ≠ Value.null := by
  unfold noloc
  cases hla : aget r "lat" with
  | none => simp
  | some la =>
    by_cases h : la = Value.null
    · subst h; simp
    · cases hln : aget r "lng" with
      | none => simp [h]
      | some ln =>
        by_cases h2 : ln = Value.null
        · subst h2; simp [h]
        · simp [h, h2]

theorem noloc_error_of_badLoc {d : Dict} (h : badLoc d) : noloc d = Except.error () := by
  rcases h with h | ⟨v, hv, hvn, hl⟩
  · simp [noloc, h]
  · simp [noloc, hv, hvn, hl]

theorem livePair_none_of_noloc_true {r : Dict} (h : noloc r = Except.ok true) :
    livePair r = none := by
  simp [livePair, h]

theorem livePair_of_noloc_false {r : Dict} {a b : Value}
    (h : noloc r = Except.ok false) (hla : aget r "lat" = some a)
    (hlb : aget r "lng" = some b) : livePair r = some (a, b) := by
  simp [livePair, h, hla, hlb]

theorem location_tuple_of_pair {r : Dict} {a b : Value}
    (hla : aget r "lat" = some a) (hlb : aget r "lng" = some b) :
    location_tuple r = Except.ok (a, b) := by
  simp [location_tuple, hla, hlb]

theorem getNum_ok_iff {r : Dict} {k : String} {q : ℚ} :
    getNum r k = Except.ok q ↔ aget r k = some (Value.num q) := by
  unfold getNum
  cases h : aget r k with
  | none => simp
  | some v => cases v <;> simp

theorem randomnize_ok {obj obj2 : Dict} {zs zs2 : List ℚ}
    (h : randomnize_location obj zs = Except.ok (obj2, zs2)) :
    ∃ la ln, aget obj "lat" = some (Value.num la) ∧ aget obj "lng" = some (Value.num ln) ∧
      obj2 = ainsert (ainsert obj "lat" (Value.num (gauss la sigma (draw zs).1)))
        "lng" (Value.num (gauss ln sigma (draw (draw zs).2).1)) ∧
      zs2 = (draw (draw zs).2).2 := by
  unfold randomnize_location at h
  cases hla : getNum obj "lat" with
  | error e => rw [hla] at h; cases h
  | ok la =>
    rw [hla] at h
    dsimp only at h
    have hlng : getNum (ainsert obj "lat" (Value.num (gauss la sigma (draw zs).1))) "lng" =
        getNum obj "lng" := by
      unfold getNum
      rw [aget_ainsert_other _ (by decide)]
    rw [hlng] at h
    cases hln : getNum obj "lng" with
    | error e => rw [hln] at h; cases h
    | ok ln =>
      rw [hln] at h
      refine ⟨la, ln, getNum_ok_iff.mp hla, getNum_ok_iff.mp hln, ?_, ?_⟩
      · exact (congrArg Prod.fst (Except.ok.inj h)).symm
      · exact (congrArg Prod.snd (Except.ok.inj h)).symm

/-! ## Dedup characterization -/

theorem pairsOf_cons (kr : String × Dict) (rest : List (String × Dict)) :
    pairsOf (kr :: rest) = (livePair kr.2).toList ++ pairsOf rest := by
  cases h : livePair kr.2 <;> simp [pairsOf, List.filterMap_cons, h]

theorem collideB_zero (seen : List (Value × Value)) (k : String) (r : Dict)
    (rest : List (String × Dict)) :
    collideB seen ((k, r) :: rest) 0 =
      match livePair r with
      | some p => decide (p ∈ seen)
      | none => false := by
  unfold collideB
  cases h : livePair r <;> simp [h, pairsOf]

theorem collideB_succ (seen : List (Value × Value)) (k : String) (r : Dict)
    (rest : List (String × Dict)) (i : ℕ) :
    collideB seen ((k, r) :: rest) (i + 1) =
      collideB ((livePair r).toList ++ seen) rest i := by
  unfold collideB
  cases hr : rest[i]? with
  | none => simp [hr]
  | some kr =>
    cases hp : livePair kr.2 with
    | none => simp [hr, hp]
    | some p =>
      simp only [List.getElem?_cons_succ, hr, hp, List.take_succ_cons, pairsOf_cons]
      rw [Bool.eq_iff_iff]
      simp only [Bool.or_eq_true, decide_eq_true_eq, List.mem_append]
      tauto

theorem collideKeyAt_succ (seen : List (Value × Value)) (k : String) (r : Dict)
    (rest : List (String × Dict)) :
    collideKeyAt seen ((k, r) :: rest) ∘ Nat.succ =
      collideKeyAt ((livePair r).toList ++ seen) rest := by
  funext i
  simp only [Function.comp_apply, collideKeyAt, List.getElem?_cons_succ, collideB_succ]

theorem collidedKeysSeen_nil (seen : List (Value × Value)) :
    collidedKeysSeen seen [] = [] := rfl

theorem collidedKeysSeen_cons (seen : List (Value × Value)) (k : String) (r : Dict)
    (rest : List (String × Dict)) :
    collidedKeysSeen seen ((k, r) :: rest) =
      (if collideB seen ((k, r) :: rest) 0 then [k] else []) ++
        collidedKeysSeen ((livePair r).toList ++ seen) rest := by
  unfold collidedKeysSeen
  rw [List.length_cons, List.range_succ_eq_map, List.filterMap_cons, List.filterMap_map,
    collideKeyAt_succ]
  have h0 : collideKeyAt seen ((k, r) :: rest) 0 =
      if collideB seen ((k, r) :: rest) 0 then some k else none := by
    simp [collideKeyAt]
  rw [h0]
  cases hc : collideB seen ((k, r) :: rest) 0 <;> simp

/-- The behaviour of the dedup loop, by induction over the batch with the
`ulocs` accumulator generalized: keys and order are preserved; the warned
(perturbed) keys are exactly the colliding ones; non-colliding entities are
returned unchanged; colliding entities get both coordinates replaced by
`gauss`-perturbed values centred on the originals. -/
theorem dedupGo_spec :
    ∀ (batch : List (String × Dict)) (ulocs : List ((Value × Value) × String))
      (seen : List (Value × Value)) (zs : List ℚ)
      (out : List (String × Dict) × List String × List ℚ),
      (∀ p : Value × Value, (aget ulocs p).isSome = true ↔ p ∈ seen) →
      dedupGo batch ulocs zs = Except.ok out →
      out.1.map Prod.fst = batch.map Prod.fst ∧
      out.2.1 = collidedKeysSeen seen batch ∧
      (∀ i, collideB seen batch i = false → out.1[i]? = batch[i]?) ∧
      (∀ i kr, batch[i]? = some kr → collideB seen batch i = true →
        ∃ la ln z1 z2, aget kr.2 "lat" = some (Value.num la) ∧
          aget kr.2 "lng" = some (Value.num ln) ∧
          out.1[i]? = some (kr.1,
            ainsert (ainsert kr.2 "lat" (Value.num (gauss la sigma z1)))
              "lng" (Value.num (gauss ln sigma z2)))) := by
  intro batch
  induction batch with
  | nil =>
    intro ulocs seen zs out hinv h
    simp only [dedupGo] at h
    have hout := Except.ok.inj h
    subst hout
    refine ⟨rfl, rfl, fun i _ => rfl, fun i kr hkr _ => ?_⟩
    simp at hkr
  | cons hd rest ih =>
    intro ulocs seen zs out hinv h
    obtain ⟨key, obj⟩ := hd
    simp only [dedupGo] at h
    cases hn : noloc obj with
    | error e => rw [hn] at h; cases h
    | ok nl =>
      rw [hn] at h
      cases nl with
      | true =>
        have hlp : livePair obj = none := livePair_none_of_noloc_true hn
        cases hrec : dedupGo rest ulocs zs with
        | error e => rw [hrec] at h; cases h
        | ok triple =>
          rw [hrec] at h
          obtain ⟨rest2, per, zs2⟩ := triple
          dsimp only at h
          have hout := (Except.ok.inj h).symm
          subst hout
          obtain ⟨ihm, ihp, ihu, ihc⟩ := ih ulocs seen zs (rest2, per, zs2) hinv hrec
          refine ⟨?_, ?_, ?_, ?_⟩
          · simpa using ihm
          · rw [collidedKeysSeen_cons, collideB_zero, hlp]
            simpa [hlp] using ihp
          · intro i hci
            cases i with
            | zero => simp
            | succ i =>
              rw [collideB_succ, hlp] at hci
              simpa using ihu i (by simpa using hci)
          · intro i kr hkr hci
            cases i with
            | zero =>
              rw [collideB_zero, hlp] at hci
              cases hci
            | succ i =>
              rw [collideB_succ, hlp] at hci
              simp only [List.getElem?_cons_succ] at hkr
              simpa using ihc i kr hkr (by simpa using hci)
      | false =>
        obtain ⟨a, b, hla, hna, hlb, hnb⟩ := noloc_false_iff.mp hn
        have hlt : location_tuple obj = Except.ok (a, b) := location_tuple_of_pair hla hlb
        have hlp : livePair obj = some (a, b) := livePair_of_noloc_false hn hla hlb
        rw [hlt] at h
        dsimp only at h
        cases hu : aget ulocs (a, b) with
        | some w =>
          have hmem : (a, b) ∈ seen := (hinv (a, b)).mp (by simp [hu])
          rw [hu] at h
          dsimp only at h
          cases hr : randomnize_location obj zs with
          | error e => rw [hr] at h; cases h
          | ok pr =>
            rw [hr] at h
            obtain ⟨obj2, zs2⟩ := pr
            dsimp only at h
            cases hrec : dedupGo rest ulocs zs2 with
            | error e => rw [hrec] at h; cases h
            | ok triple =>
              rw [hrec] at h
              obtain ⟨rest2, per, zs3⟩ := triple
              dsimp only at h
              have hout := (Except.ok.inj h).symm
              subst hout
              have hinv2 : ∀ p : Value × Value,
                  (aget ulocs p).isSome = true ↔ p ∈ (a, b) :: seen := by
                intro p
                rw [hinv p]
                constructor
                · exact fun hp => List.mem_cons_of_mem _ hp
                · intro hp
                  rcases List.mem_cons.mp hp with hp | hp
                  · exact hp ▸ hmem
                  · exact hp
              obtain ⟨ihm, ihp, ihu, ihc⟩ := ih ulocs ((a, b) :: seen) zs2 (rest2, per, zs3) hinv2 hrec
              obtain ⟨la, ln, hla2, hlb2, hobj2, hzs2⟩ := randomnize_ok hr
              refine ⟨?_, ?_, ?_, ?_⟩
              · simpa using ihm
              · rw [collidedKeysSeen_cons, collideB_zero, hlp]
                simp only [hlp, Option.toList_some, List.singleton_append]
                simp [hmem]
                exact ihp
              · intro i hci
                cases i with
                | zero =>
                  rw [collideB_zero, hlp] at hci
                  simp [hmem] at hci
                | succ i =>
                  rw [collideB_succ, hlp] at hci
                  simpa using ihu i (by simpa using hci)
              · intro i kr hkr hci
                cases i with
                | zero =>
                  have hkr0 : kr = (key, obj) := by
                    simpa using hkr.symm
                  subst hkr0
                  refine ⟨la, ln, (draw zs).1, (draw (draw zs).2).1, hla2, hlb2, ?_⟩
                  simp [hobj2]
                | succ i =>
                  rw [collideB_succ, hlp] at hci
                  simp only [List.getElem?_cons_succ] at hkr
                  simpa using ihc i kr hkr (by simpa using hci)
        | none =>
          have hnmem : (a, b) ∉ seen := fun hm =>
            by simpa [hu] using (hinv (a, b)).mpr hm
          rw [hu] at h
          dsimp only at h
          cases hrec : dedupGo rest (ainsert ulocs (a, b) key) zs with
          | error e => rw [hrec] at h; cases h
          | ok triple =>
            rw [hrec] at h
            obtain ⟨rest2, per, zs2⟩ := triple
            dsimp only at h
            have hout := (Except.ok.inj h).symm
            subst hout
            have hinv2 : ∀ p : Value × Value,
                (aget (ainsert ulocs (a, b) key) p).isSome = true ↔ p ∈ (a, b) :: seen := by
              intro p
              rw [aget_ainsert]
              by_cases hp : p = (a, b)
              · simp [hp]
              · simp only [if_neg hp]
                rw [hinv p]
                constructor
                · exact fun hq => List.mem_cons_of_mem _ hq
                · intro hq
                  rcases List.mem_cons.mp hq with hq | hq
                  · exact absurd hq hp
                  · exact hq
            obtain ⟨ihm, ihp, ihu, ihc⟩ :=
              ih (ainsert ulocs (a, b) key) ((a, b) :: seen) zs (rest2, per, zs2) hinv2 hrec
            refine ⟨?_, ?_, ?_, ?_⟩
            · simpa using ihm
            · rw [collidedKeysSeen_cons, collideB_zero, hlp]
              simp only [hlp, Option.toList_some, List.singleton_append]
              simp [hnmem]
              exact ihp
            · intro i hci
              cases i with
              | zero => simp
              | succ i =>
                rw [collideB_succ, hlp] at hci
                simpa using ihu i (by simpa using hci)
            · intro i kr hkr hci
              cases i with
              | zero =>
                rw [collideB_zero, hlp] at hci
                simp [hnmem] at hci
              | succ i =>
                rw [collideB_succ, hlp] at hci
                simp only [List.getElem?_cons_succ] at hkr
                simpa using ihc i kr hkr (by simpa using hci)


/-! ## Claim C4 -/

/-- C4: `__dedup_locations`, iterating entities in their given collection
order, perturbs (replacing `lat` and `lng` independently by values
`gauss`-centred on the originals with standard deviation `sigma = 0.001`)
exactly those entities whose live (non-UNKNOWN) location pair exactly equals
the pre-dedup pair of an earlier-iterated live entity: keys and order are
preserved, the warned/perturbed key list equals `collidedKeys` — a function
of the pre-dedup state and iteration order only, independent of the drawn
noise — non-colliding entities (each pair's first holder) are returned
unchanged, and entities with no live pair (UNKNOWN) are never touched. -/
theorem C4_dedup_collision_characterization
    (batch : List (String × Dict)) (zs : List ℚ)
    (out : List (String × Dict) × List String × List ℚ)
    (h : dedup_locations batch zs = Except.ok out) :
    out.1.map Prod.fst = batch.map Prod.fst ∧
    out.2.1 = collidedKeys batch ∧
    (∀ i : ℕ, collideB [] batch i = false → out.1[i]? = batch[i]?) ∧
    (∀ (i : ℕ) (kr : String × Dict), batch[i]? = some kr → livePair kr.2 = none →
      out.1[i]? = batch[i]?) ∧
    (∀ (i : ℕ) (kr : String × Dict), batch[i]? = some kr → collideB [] batch i = true →
      ∃ la ln z1 z2, aget kr.2 "lat" = some (Value.num la) ∧
        aget kr.2 "lng" = some (Value.num ln) ∧
        out.1[i]? = some (kr.1,
          ainsert (ainsert kr.2 "lat" (Value.num (gauss la sigma z1)))
            "lng" (Value.num (gauss ln sigma z2)))) := by
  have hbase : ∀ p : Value × Value, (aget ([] : List ((Value × Value) × String)) p).isSome = true ↔ p ∈ ([] : List (Value × Value)) := by
    intro p
    simp [aget]
  obtain ⟨hm, hp, hu, hc⟩ := dedupGo_spec batch [] [] zs out hbase h
  refine ⟨hm, hp, hu, ?_, hc⟩
  intro i kr hkr hlp
  apply hu
  unfold collideB
  rw [hkr]
  dsimp only
  rw [hlp]

/-- C4 witness: on the concrete colliding batch, the characterization holds
with perturbed keys exactly `["b"]` and `a`/`u` unchanged. -/
theorem C4_dedup_collision_characterization_witness :
    dedup_locations c4batch [3, 4] = Except.ok c4out ∧
    (c4out.1.map Prod.fst = c4batch.map Prod.fst ∧
    c4out.2.1 = collidedKeys c4batch ∧
    (∀ i : ℕ, collideB [] c4batch i = false → c4out.1[i]? = c4batch[i]?) ∧
    (∀ (i : ℕ) (kr : String × Dict), c4batch[i]? = some kr → livePair kr.2 = none →
      c4out.1[i]? = c4batch[i]?) ∧
    (∀ (i : ℕ) (kr : String × Dict), c4batch[i]? = some kr → collideB [] c4batch i = true →
      ∃ la ln z1 z2, aget kr.2 "lat" = some (Value.num la) ∧
        aget kr.2 "lng" = some (Value.num ln) ∧
        c4out.1[i]? = some (kr.1,
          ainsert (ainsert kr.2 "lat" (Value.num (gauss la sigma z1)))
            "lng" (Value.num (gauss ln sigma z2))))) :=
  ⟨rfl, C4_dedup_collision_characterization c4batch [3, 4] c4out rfl⟩

/-! ## Resolution-phase lemmas (teams) -/

theorem geolocate_team_trace {provider : String → Except Unit (List Dict)} {team t2 : Dict}
    {tr : List String} (h : geolocate_team provider team = Except.ok (t2, tr)) :
    tr = (make_team_address team).toList := by
  unfold geolocate_team at h
  cases hk : aget team "key" with
  | none => rw [hk] at h; cases h
  | some w =>
    rw [hk] at h
    dsimp only at h
    cases ha : make_team_address team with
    | none =>
      rw [ha] at h
      dsimp only at h
      have hq := congrArg Prod.snd (Except.ok.inj h)
      simpa [ha] using hq.symm
    | some addr =>
      rw [ha] at h
      dsimp only at h
      cases hp : provider addr with
      | error e =>
        rw [hp] at h
        dsimp only at h
        have hq := congrArg Prod.snd (Except.ok.inj h)
        simpa [ha] using hq.symm
      | ok rs =>
        rw [hp] at h
        cases rs with
        | nil =>
          dsimp only at h
          have hq := congrArg Prod.snd (Except.ok.inj h)
          simpa [ha] using hq.symm
        | cons loc rest2 =>
          dsimp only at h
          have hq := congrArg Prod.snd (Except.ok.inj h)
          simpa [ha] using hq.symm

theorem geolocate_team_fail {provider : String → Except Unit (List Dict)} {team : Dict}
    {addr : String} (hk : (aget team "key").isSome)
    (ha : make_team_address team = some addr)
    (hp : provider addr = Except.error () ∨ provider addr = Except.ok []) :
    geolocate_team provider team = Except.ok (aupdate team UNKNOWN, [addr]) := by
  obtain ⟨w, hw⟩ := Option.isSome_iff_exists.mp hk
  unfold geolocate_team
  rw [hw, ha]
  dsimp only
  rcases hp with hp | hp <;> rw [hp]

theorem resolve_team_cases {ov ar : List (String × Dict)}
    {provider : String → Except Unit (List Dict)} {kt p : String × Dict} {tr : List String}
    (h : resolve_team ov ar provider kt = Except.ok (p, tr)) :
    p.1 = kt.1 ∧
    tr = (if (aget ov kt.1).isSome ∨ (aget ar kt.1).isSome then ([] : List String)
          else (make_team_address kt.2).toList) := by
  unfold resolve_team at h
  cases ho : aget ov kt.1 with
  | some o =>
    rw [ho] at h
    dsimp only at h
    have hq := Except.ok.inj h
    rw [Prod.mk.injEq] at hq
    obtain ⟨hpp, htt⟩ := hq
    constructor
    · rw [← hpp]
    · rw [if_pos (Or.inl (by simp)), ← htt]
  | none =>
    rw [ho] at h
    dsimp only at h
    cases ha : aget ar kt.1 with
    | some a =>
      rw [ha] at h
      dsimp only at h
      have hq := Except.ok.inj h
      rw [Prod.mk.injEq] at hq
      obtain ⟨hpp, htt⟩ := hq
      constructor
      · rw [← hpp]
      · rw [if_pos (Or.inr (by simp)), ← htt]
    | none =>
      rw [ha] at h
      dsimp only at h
      cases hg : geolocate_team provider kt.2 with
      | error e => rw [hg] at h; cases h
      | ok pq =>
        rw [hg] at h
        obtain ⟨t2, tr2⟩ := pq
        dsimp only at h
        have hq := Except.ok.inj h
        rw [Prod.mk.injEq] at hq
        obtain ⟨hpp, htt⟩ := hq
        constructor
        · rw [← hpp]
        · rw [if_neg (by simp), ← geolocate_team_trace hg, htt]

theorem resolve_teams_ok {ov ar : List (String × Dict)}
    {provider : String → Except Unit (List Dict)} :
    ∀ (teams res : List (String × Dict)) (tr : List String),
      resolve_teams ov ar provider teams = Except.ok (res, tr) →
      res.map Prod.fst = teams.map Prod.fst ∧
      tr = teams.filterMap (fun kt =>
        if (aget ov kt.1).isSome ∨ (aget ar kt.1).isSome then none
        else make_team_address kt.2) ∧
      (∀ (i : ℕ) (kt : String × Dict), teams[i]? = some kt →
        ∃ r tr2, res[i]? = some (kt.1, r) ∧
          resolve_team ov ar provider kt = Except.ok ((kt.1, r), tr2)) := by
  intro teams
  induction teams with
  | nil =>
    intro res tr h
    simp only [resolve_teams] at h
    have hq := Except.ok.inj h
    rw [Prod.mk.injEq] at hq
    obtain ⟨h1, h2⟩ := hq
    subst h1
    subst h2
    refine ⟨rfl, rfl, ?_⟩
    intro i kt hkt
    simp at hkt
  | cons kt0 rest ih =>
    intro res tr h
    simp only [resolve_teams] at h
    cases hstep : resolve_team ov ar provider kt0 with
    | error e => rw [hstep] at h; cases h
    | ok pq =>
      rw [hstep] at h
      obtain ⟨p, tr1⟩ := pq
      dsimp only at h
      cases hrec : resolve_teams ov ar provider rest with
      | error e => rw [hrec] at h; cases h
      | ok pr =>
        rw [hrec] at h
        obtain ⟨res2, trs⟩ := pr
        dsimp only at h
        have hq := (Except.ok.inj h).symm
        rw [Prod.mk.injEq] at hq
        obtain ⟨hres, htr⟩ := hq
        obtain ⟨hp1, htr1⟩ := resolve_team_cases hstep
        obtain ⟨ihm, ihtr, ihpos⟩ := ih res2 trs hrec
        subst hres
        subst htr
        refine ⟨by simp [hp1, ihm], ?_, ?_⟩
        · rw [List.filterMap_cons]
          by_cases hc : (aget ov kt0.1).isSome ∨ (aget ar kt0.1).isSome
          · rw [if_pos hc] at htr1
            simp only [hc, if_true]
            rw [htr1, ihtr]
            rfl
          · rw [if_neg hc] at htr1
            simp only [hc, if_false]
            rw [htr1, ihtr]
            cases make_team_address kt0.2 <;> rfl
        · intro i kt hkt
          cases i with
          | zero =>
            simp only [List.getElem?_cons_zero, Option.some.injEq] at hkt
            subst hkt
            refine ⟨p.2, tr1, ?_, ?_⟩
            · simp [← hp1]
            · have hpp : p = (kt0.1, p.2) := by
                rw [← hp1]
              rw [← hpp]
              exact hstep
          | succ i =>
            simp only [List.getElem?_cons_succ] at hkt
            obtain ⟨r, tr2, hres, hstep2⟩ := ihpos i kt hkt
            exact ⟨r, tr2, by simpa using hres, hstep2⟩

theorem populate_team_ok {ov ar : List (String × Dict)}
    {provider : String → Except Unit (List Dict)} {teams : List (String × Dict)}
    {year : ℕ} {zs : List ℚ} {R : TeamRun}
    (h : populate_team_locations ov ar provider teams year zs = Except.ok R) :
    ∃ resolved per zs2,
      resolve_teams ov ar provider teams = Except.ok (resolved, R.trace) ∧
      dedup_locations resolved zs = Except.ok (R.teams, per, zs2) ∧
      save_archive_data R.teams = Except.ok R.saved ∧
      R.savedName = team_archive_name year ∧ R.perturbed = per ∧ R.rest = zs2 := by
  unfold populate_team_locations at h
  cases h1 : resolve_teams ov ar provider teams with
  | error e => rw [h1] at h; cases h
  | ok p1 =>
    rw [h1] at h
    obtain ⟨resolved, trace⟩ := p1
    dsimp only at h
    cases h2 : dedup_locations resolved zs with
    | error e => rw [h2] at h; cases h
    | ok p2 =>
      rw [h2] at h
      obtain ⟨deduped, per, zs2⟩ := p2
      dsimp only at h
      cases h3 : save_archive_data deduped with
      | error e => rw [h3] at h; cases h
      | ok saved =>
        rw [h3] at h
        dsimp only at h
        have hq := (Except.ok.inj h).symm
        subst hq
        exact ⟨resolved, per, zs2, rfl, h2, h3, rfl, rfl, rfl⟩

theorem aupdate_UNKNOWN_lat (t : Dict) : aget (aupdate t UNKNOWN) "lat" = some Value.null := by
  show aget (ainsert (ainsert t "lat" Value.null) "lng" Value.null) "lat" = some Value.null
  rw [aget_ainsert_other _ (by decide), aget_ainsert_self]

theorem aupdate_UNKNOWN_lng (t : Dict) : aget (aupdate t UNKNOWN) "lng" = some Value.null := by
  show aget (ainsert (ainsert t "lat" Value.null) "lng" Value.null) "lng" = some Value.null
  rw [aget_ainsert_self]

theorem geolocate_team_fail_inv {provider : String → Except Unit (List Dict)}
    {team t2 : Dict} {tr : List String} {addr : String}
    (ha : make_team_address team = some addr)
    (hp : provider addr = Except.error () ∨ provider addr = Except.ok [])
    (h : geolocate_team provider team = Except.ok (t2, tr)) :
    t2 = aupdate team UNKNOWN ∧ tr = [addr] := by
  unfold geolocate_team at h
  cases hk : aget team "key" with
  | none => rw [hk] at h; cases h
  | some w =>
    rw [hk] at h
    dsimp only at h
    rw [ha] at h
    dsimp only at h
    rcases hp with hp | hp <;>
      · rw [hp] at h
        dsimp only at h
        have hq := Except.ok.inj h
        rw [Prod.mk.injEq] at hq
        exact ⟨hq.1.symm, hq.2.symm⟩

theorem resolve_team_geocode {ov ar : List (String × Dict)}
    {provider : String → Except Unit (List Dict)} {k : String} {t r : Dict}
    {tr2 : List String} (ho : aget ov k = none) (ha : aget ar k = none)
    (h : resolve_team ov ar provider (k, t) = Except.ok ((k, r), tr2)) :
    geolocate_team provider t = Except.ok (r, tr2) := by
  unfold resolve_team at h
  dsimp only at h
  rw [ho] at h
  dsimp only at h
  rw [ha] at h
  dsimp only at h
  cases hg : geolocate_team provider t with
  | error e => rw [hg] at h; cases h
  | ok pq =>
    rw [hg] at h
    obtain ⟨t2, tr⟩ := pq
    dsimp only at h
    have hq := Except.ok.inj h
    rw [Prod.mk.injEq] at hq
    obtain ⟨h1, h2⟩ := hq
    rw [Prod.mk.injEq] at h1
    rw [h1.2, h2]

/-! ## Claim C9 -/

/-- C9: when live geocoding is attempted for a team and the provider call
fails (raises, or returns the empty result list), the team record is set to
UNKNOWN in place, the batch continues (the run still returns its full
outcome, so the archive is persisted), and the provider-call trace is
exactly one address per live-geocoded entity — entities resolved by
override or archive contribute no call, entities without an address
contribute no call, and no entity is ever queried twice. -/
theorem C9_provider_failure_isolated
    (ov ar : List (String × Dict)) (provider : String → Except Unit (List Dict))
    (teams : List (String × Dict)) (year : ℕ) (zs : List ℚ) (R : TeamRun)
    (h : populate_team_locations ov ar provider teams year zs = Except.ok R) :
    R.trace = teams.filterMap (fun kt =>
      if (aget ov kt.1).isSome ∨ (aget ar kt.1).isSome then none
      else make_team_address kt.2) ∧
    (∀ (i : ℕ) (k : String) (t : Dict) (addr : String),
      teams[i]? = some (k, t) → aget ov k = none → aget ar k = none →
      make_team_address t = some addr →
      (provider addr = Except.error () ∨ provider addr = Except.ok []) →
      R.teams[i]? = some (k, aupdate t UNKNOWN) ∧
      noloc (aupdate t UNKNOWN) = Except.ok true) := by
  obtain ⟨resolved, per, zs2, h1, h2, h3, _, _, _⟩ := populate_team_ok h
  obtain ⟨hmap, htr, hpos⟩ := resolve_teams_ok teams resolved R.trace h1
  refine ⟨htr, ?_⟩
  intro i k t addr hkt ho ha hmta hp
  obtain ⟨r, tr2, hresi, hstep⟩ := hpos i (k, t) hkt
  have hg := resolve_team_geocode ho ha hstep
  obtain ⟨hr, _⟩ := geolocate_team_fail_inv hmta hp hg
  subst hr
  have hnl : noloc (aupdate t UNKNOWN) = Except.ok true :=
    noloc_of_lat_null (aupdate_UNKNOWN_lat t)
  have hcb : collideB [] resolved i = false := by
    unfold collideB
    rw [hresi]
    dsimp only
    rw [livePair_none_of_noloc_true hnl]
  have hbase : ∀ p : Value × Value,
      (aget ([] : List ((Value × Value) × String)) p).isSome = true ↔
        p ∈ ([] : List (Value × Value)) := by
    intro p
    simp [aget]
  obtain ⟨_, _, hu, _⟩ := dedupGo_spec resolved [] [] zs (R.teams, per, zs2) hbase h2
  refine ⟨?_, hnl⟩
  rw [hu i hcb, hresi]

/-- C9 witness: provider returning the empty list degrades team `t1` to
UNKNOWN, the batch completes, and the trace holds the single address. -/
theorem C9_provider_failure_isolated_witness :
    populate_team_locations [] [] emptyProv c9teams 2024 [] = Except.ok c9run ∧
    (c9run.trace = c9teams.filterMap (fun kt =>
      if (aget ([] : List (String × Dict)) kt.1).isSome ∨
          (aget ([] : List (String × Dict)) kt.1).isSome then none
      else make_team_address kt.2) ∧
    (∀ (i : ℕ) (k : String) (t : Dict) (addr : String),
      c9teams[i]? = some (k, t) → aget ([] : List (String × Dict)) k = none →
      aget ([] : List (String × Dict)) k = none →
      make_team_address t = some addr →
      (emptyProv addr = Except.error () ∨ emptyProv addr = Except.ok []) →
      c9run.teams[i]? = some (k, aupdate t UNKNOWN) ∧
      noloc (aupdate t UNKNOWN) = Except.ok true)) :=
  ⟨rfl, C9_provider_failure_isolated [] [] emptyProv c9teams 2024 [] c9run rfl⟩

/-! ## Claim C3 -/

theorem isNumV_isSome {x : Option Value} (h : isNumV x = true) : x.isSome := by
  cases x with
  | none => simp [isNumV] at h
  | some v => simp

theorem isNumV_num {x : Option Value} (h : isNumV x = true) :
    ∃ q, x = some (Value.num q) := by
  cases x with
  | none => simp [isNumV] at h
  | some v =>
    cases v with
    | num q => exact ⟨q, rfl⟩
    | null => simp [isNumV] at h
    | str t => simp [isNumV] at h
    | bool b => simp [isNumV] at h

theorem fullLocB_spec {o : Dict} (h : fullLocB o = true) :
    (o.map Prod.fst).Nodup ∧ isNumV (aget o "lat") = true ∧ isNumV (aget o "lng") = true := by
  unfold fullLocB at h
  simp only [Bool.and_eq_true, decide_eq_true_eq] at h
  exact ⟨h.1.1, h.1.2, h.2⟩

theorem resolve_team_override {ov ar : List (String × Dict)}
    {provider : String → Except Unit (List Dict)} {k : String} {t o r : Dict}
    {tr2 : List String} (ho : aget ov k = some o)
    (h : resolve_team ov ar provider (k, t) = Except.ok ((k, r), tr2)) :
    r = aupdate t o := by
  unfold resolve_team at h
  dsimp only at h
  rw [ho] at h
  dsimp only at h
  have hq := Except.ok.inj h
  rw [Prod.mk.injEq] at hq
  have h1 := hq.1
  rw [Prod.mk.injEq] at h1
  exact h1.2.symm

/-- C3 counterexample, refuting the claim as stated: team `b` is in the
override map at (10, 20), but because the archive placed the
earlier-iterated team `a` at the same exact pair, the dedup pass perturbs
`b`, so `b`'s final location does not equal the override's location. -/
theorem C3_counterexample :
    populate_team_locations c3ov c3ar failProv c3teams 2024 [1, 1] = Except.ok c3run ∧
    aget c3ov "b" = some [("lat", Value.num 10), ("lng", Value.num 20)] ∧
    aget c3run.teams "b" = some [("key", Value.str "b"), ("lat", Value.num (gauss 10 sigma 1)),
      ("lng", Value.num (gauss 20 sigma 1))] ∧
    gauss 10 sigma 1 ≠ 10 :=
  ⟨rfl, rfl, rfl, by norm_num [gauss, sigma]⟩

/-- C3 (amended): for any team whose identifier is in the override map
(override entries being full numeric pairs with unique keys), the record
right after the resolution pass is the input record merged with the
override, so its lat/lng equal the override's, regardless of archive or
provider content; the final post-dedup record still equals it provided the
resolved batch holds no earlier-iterated entity with the same exact
coordinate pair — otherwise the collision-deduplication pass perturbs the
overridden location (see the counterexample). -/
theorem C3_override_precedence_amended
    (ov ar : List (String × Dict)) (provider : String → Except Unit (List Dict))
    (teams : List (String × Dict)) (year : ℕ) (zs : List ℚ) (R : TeamRun)
    (hov : ov.all (fun ko => fullLocB ko.2) = true)
    (h : populate_team_locations ov ar provider teams year zs = Except.ok R) :
    ∀ (i : ℕ) (k : String) (t o : Dict),
      teams[i]? = some (k, t) → aget ov k = some o →
      ∃ resolved per zs2,
        resolve_teams ov ar provider teams = Except.ok (resolved, R.trace) ∧
        dedup_locations resolved zs = Except.ok (R.teams, per, zs2) ∧
        resolved[i]? = some (k, aupdate t o) ∧
        aget (aupdate t o) "lat" = aget o "lat" ∧
        aget (aupdate t o) "lng" = aget o "lng" ∧
        (collideB [] resolved i = false → R.teams[i]? = some (k, aupdate t o)) := by
  obtain ⟨resolved, per, zs2, h1, h2, h3, _, _, _⟩ := populate_team_ok h
  obtain ⟨hmap, htr, hpos⟩ := resolve_teams_ok teams resolved R.trace h1
  intro i k t o hkt ho
  obtain ⟨r, tr2, hresi, hstep⟩ := hpos i (k, t) hkt
  have hr := resolve_team_override ho hstep
  subst hr
  have hful : fullLocB o = true := by
    have hmem := aget_some_mem ov k o ho
    exact List.all_eq_true.mp hov (k, o) hmem
  obtain ⟨hnd, hlat, hlng⟩ := fullLocB_spec hful
  refine ⟨resolved, per, zs2, h1, h2, hresi, ?_, ?_, ?_⟩
  · exact aget_aupdate_of_isSome o t "lat" hnd (isNumV_isSome hlat)
  · exact aget_aupdate_of_isSome o t "lng" hnd (isNumV_isSome hlng)
  · intro hcb
    have hbase : ∀ p : Value × Value,
        (aget ([] : List ((Value × Value) × String)) p).isSome = true ↔
          p ∈ ([] : List (Value × Value)) := by
      intro p
      simp [aget]
    obtain ⟨_, _, hu, _⟩ := dedupGo_spec resolved [] [] zs (R.teams, per, zs2) hbase h2
    rw [hu i hcb, hresi]

/-- C3 amended-claim witness: with a single overridden, non-colliding team,
the resolution merge and the final record both carry the override's pair. -/
theorem C3_override_precedence_amended_witness :
    c3wov.all (fun ko => fullLocB ko.2) = true ∧
    populate_team_locations c3wov [] failProv c3wteams 2024 [] = Except.ok c3wrun ∧
    (∀ (i : ℕ) (k : String) (t o : Dict),
      c3wteams[i]? = some (k, t) → aget c3wov k = some o →
      ∃ resolved per zs2,
        resolve_teams c3wov [] failProv c3wteams = Except.ok (resolved, c3wrun.trace) ∧
        dedup_locations resolved [] = Except.ok (c3wrun.teams, per, zs2) ∧
        resolved[i]? = some (k, aupdate t o) ∧
        aget (aupdate t o) "lat" = aget o "lat" ∧
        aget (aupdate t o) "lng" = aget o "lng" ∧
        (collideB [] resolved i = false → c3wrun.teams[i]? = some (k, aupdate t o))) :=
  ⟨by decide, rfl,
    C3_override_precedence_amended c3wov [] failProv c3wteams 2024 [] c3wrun (by decide) rfl⟩

/-! ## Resolution-phase lemmas (events) -/

theorem populate_event_ok {ov ar : List (String × Dict)} {enhance : Dict → Except Unit Dict}
    {provider : String → Except Unit (List Dict)} {events : List (String × Dict)}
    {zs : List ℚ} {R : EventRun}
    (h : populate_event_locations ov ar enhance provider events zs = Except.ok R) :
    ∃ resolved per zs2,
      eventsGo ov ar enhance provider events = Except.ok (resolved, R.trace) ∧
      save_archive_data resolved = Except.ok R.saved ∧
      dedup_locations resolved zs = Except.ok (R.events, per, zs2) ∧
      R.savedName = event_archive_name ∧ R.perturbed = per ∧ R.rest = zs2 := by
  unfold populate_event_locations at h
  cases h1 : eventsGo ov ar enhance provider events with
  | error e => rw [h1] at h; cases h
  | ok p1 =>
    rw [h1] at h
    obtain ⟨resolved, trace⟩ := p1
    dsimp only at h
    cases h2 : save_archive_data resolved with
    | error e => rw [h2] at h; cases h
    | ok saved =>
      rw [h2] at h
      dsimp only at h
      cases h3 : dedup_locations resolved zs with
      | error e => rw [h3] at h; cases h
      | ok p3 =>
        rw [h3] at h
        obtain ⟨deduped, per, zs2⟩ := p3
        dsimp only at h
        have hq := (Except.ok.inj h).symm
        subst hq
        exact ⟨resolved, per, zs2, rfl, h2, h3, rfl, rfl, rfl⟩

theorem eventsGo_ok {ov ar : List (String × Dict)} {enhance : Dict → Except Unit Dict}
    {provider : String → Except Unit (List Dict)} :
    ∀ (events res : List (String × Dict)) (tr : List String),
      eventsGo ov ar enhance provider events = Except.ok (res, tr) →
      res.map Prod.fst = events.map Prod.fst ∧
      (∀ (i : ℕ) (ke : String × Dict), events[i]? = some ke →
        ∃ e2 tr2, eventStep ov ar enhance provider ke.1 ke.2 = Except.ok (e2, tr2, false) ∧
          res[i]? = some (ke.1, e2)) := by
  intro events
  induction events with
  | nil =>
    intro res tr h
    simp only [eventsGo] at h
    have hq := Except.ok.inj h
    rw [Prod.mk.injEq] at hq
    obtain ⟨h1, h2⟩ := hq
    subst h1
    refine ⟨rfl, ?_⟩
    intro i ke hke
    simp at hke
  | cons ke0 rest ih =>
    intro res tr h
    obtain ⟨k0, e0⟩ := ke0
    simp only [eventsGo] at h
    cases hstep : eventStep ov ar enhance provider k0 e0 with
    | error e => rw [hstep] at h; cases h
    | ok triple =>
      rw [hstep] at h
      obtain ⟨e2, tr1, dirty⟩ := triple
      dsimp only at h
      cases dirty with
      | true => simp at h
      | false =>
        simp only [if_neg Bool.false_ne_true] at h
        cases hrec : eventsGo ov ar enhance provider rest with
        | error e => rw [hrec] at h; cases h
        | ok pr =>
          rw [hrec] at h
          obtain ⟨res2, trs⟩ := pr
          dsimp only at h
          have hq := (Except.ok.inj h).symm
          rw [Prod.mk.injEq] at hq
          obtain ⟨hres, htr⟩ := hq
          subst hres
          obtain ⟨ihm, ihpos⟩ := ih res2 trs hrec
          refine ⟨by simp [ihm], ?_⟩
          intro i ke hke
          cases i with
          | zero =>
            simp only [List.getElem?_cons_zero, Option.some.injEq] at hke
            subst hke
            exact ⟨e2, tr1, hstep, by simp⟩
          | succ i =>
            simp only [List.getElem?_cons_succ] at hke
            obtain ⟨e3, tr2, hs, hr⟩ := ihpos i ke hke
            exact ⟨e3, tr2, hs, by simpa using hr⟩

theorem eventStep_error_of_badLoc {ov ar : List (String × Dict)}
    {enhance : Dict → Except Unit Dict} {provider : String → Except Unit (List Dict)}
    {k : String} {r : Dict} (hbad : badLoc (mergedOv ov k r)) :
    eventStep ov ar enhance provider k r = Except.error () := by
  unfold eventStep
  dsimp only
  rw [noloc_error_of_badLoc hbad]

theorem eventsGo_error_of_badLoc {ov ar : List (String × Dict)}
    {enhance : Dict → Except Unit Dict} {provider : String → Except Unit (List Dict)} :
    ∀ (events : List (String × Dict)) (k : String) (r : Dict),
      (k, r) ∈ events → badLoc (mergedOv ov k r) →
      eventsGo ov ar enhance provider events = Except.error () := by
  intro events
  induction events with
  | nil =>
    intro k r hm
    simp at hm
  | cons ke0 rest ih =>
    intro k r hm hbad
    obtain ⟨k0, e0⟩ := ke0
    rcases List.mem_cons.mp hm with hm | hm
    · rw [Prod.mk.injEq] at hm
      obtain ⟨hk, hr⟩ := hm
      subst hk
      subst hr
      simp only [eventsGo]
      rw [eventStep_error_of_badLoc hbad]
    · simp only [eventsGo]
      cases hstep : eventStep ov ar enhance provider k0 e0 with
      | error e => rfl
      | ok triple =>
        obtain ⟨e2, tr1, dirty⟩ := triple
        dsimp only
        cases dirty with
        | true => rfl
        | false =>
          simp only [if_neg Bool.false_ne_true]
          rw [ih k r hm hbad]

/-! ## Claim C5 -/

/-- C5: the two pipelines order persistence and deduplication
asymmetrically. On every successful run, `populate_team_locations` saves an
archive computed from the already-deduplicated batch, while
`populate_event_locations` saves an archive computed from the resolved
batch before deduplication. On the concrete colliding batches: the team
archive contains the jittered pair and differs from the pre-dedup
projection; the event archive equals the pre-dedup projection and differs
from what saving the post-dedup records would write. -/
theorem C5_archive_dedup_ordering :
    (∀ (ov ar : List (String × Dict)) (provider : String → Except Unit (List Dict))
      (teams : List (String × Dict)) (year : ℕ) (zs : List ℚ) (R : TeamRun),
      populate_team_locations ov ar provider teams year zs = Except.ok R →
      ∃ resolved per zs2,
        resolve_teams ov ar provider teams = Except.ok (resolved, R.trace) ∧
        dedup_locations resolved zs = Except.ok (R.teams, per, zs2) ∧
        save_archive_data R.teams = Except.ok R.saved) ∧
    (∀ (ov ar : List (String × Dict)) (enhance : Dict → Except Unit Dict)
      (provider : String → Except Unit (List Dict))
      (events : List (String × Dict)) (zs : List ℚ) (R : EventRun),
      populate_event_locations ov ar enhance provider events zs = Except.ok R →
      ∃ resolved per zs2,
        eventsGo ov ar enhance provider events = Except.ok (resolved, R.trace) ∧
        save_archive_data resolved = Except.ok R.saved ∧
        dedup_locations resolved zs = Except.ok (R.events, per, zs2)) ∧
    (populate_team_locations c5ov [] failProv c5teams 2024 [1, 1] = Except.ok c5teamRun ∧
     resolve_teams c5ov [] failProv c5teams = Except.ok (c5resolvedTeams, []) ∧
     save_archive_data c5resolvedTeams = Except.ok c5preSave ∧
     c5teamRun.saved ≠ c5preSave) ∧
    (populate_event_locations c5eov [] okEnh failProv c5events [1, 1] = Except.ok c5eventRun ∧
     eventsGo c5eov [] okEnh failProv c5events = Except.ok (c5eresolved, []) ∧
     save_archive_data c5eresolved = Except.ok c5eventRun.saved ∧
     save_archive_data c5eventRun.events ≠ Except.ok c5eventRun.saved) := by
  refine ⟨?_, ?_, ⟨rfl, rfl, rfl, ?_⟩, ⟨rfl, rfl, rfl, ?_⟩⟩
  · intro ov ar provider teams year zs R h
    obtain ⟨resolved, per, zs2, h1, h2, h3, _, _, _⟩ := populate_team_ok h
    exact ⟨resolved, per, zs2, h1, h2, h3⟩
  · intro ov ar enhance provider events zs R h
    obtain ⟨resolved, per, zs2, h1, h2, h3, _, _, _⟩ := populate_event_ok h
    exact ⟨resolved, per, zs2, h1, h2, h3⟩
  · intro heq
    have h2 : (gauss 50 sigma 1 : ℚ) = 50 := by
      have := congrArg (fun l => aget l "q") heq
      simp [c5teamRun, c5preSave, aget] at this
      exact this.1
    norm_num [gauss, sigma] at h2
  · intro heq
    have hsave : save_archive_data c5eventRun.events = Except.ok c5postSave := rfl
    rw [hsave] at heq
    have hl := Except.ok.inj heq
    have h2 : (gauss 50 sigma 1 : ℚ) = 50 := by
      have := congrArg (fun l => aget l "f") hl
      simp [c5postSave, c5eventRun, aget] at this
      exact this.1
    norm_num [gauss, sigma] at h2

/-- C5 witness: the general ordering facts instantiated on the concrete
team and event runs. -/
theorem C5_archive_dedup_ordering_witness :
    populate_team_locations c5ov [] failProv c5teams 2024 [1, 1] = Except.ok c5teamRun ∧
    (∃ resolved per zs2,
      resolve_teams c5ov [] failProv c5teams = Except.ok (resolved, c5teamRun.trace) ∧
      dedup_locations resolved [1, 1] = Except.ok (c5teamRun.teams, per, zs2) ∧
      save_archive_data c5teamRun.teams = Except.ok c5teamRun.saved) ∧
    populate_event_locations c5eov [] okEnh failProv c5events [1, 1] = Except.ok c5eventRun ∧
    (∃ resolved per zs2,
      eventsGo c5eov [] okEnh failProv c5events = Except.ok (resolved, c5eventRun.trace) ∧
      save_archive_data resolved = Except.ok c5eventRun.saved ∧
      dedup_locations resolved [1, 1] = Except.ok (c5eventRun.events, per, zs2)) :=
  ⟨rfl,
   C5_archive_dedup_ordering.1 c5ov [] failProv c5teams 2024 [1, 1] c5teamRun rfl,
   rfl,
   C5_archive_dedup_ordering.2.1 c5eov [] okEnh failProv c5events [1, 1] c5eventRun rfl⟩

/-! ## Claim C10 -/

/-- C10 counterexample, refuting the claim as stated: a supplied record
that lacks the `lng` key but has `lat = null` does not raise — Python's
`or` short-circuits in `__noloc` before touching `lng` — so the batch
completes, with the record left unlocated and marked `ignore`. -/
theorem C10_counterexample :
    aget ([("key", Value.str "e1"), ("lat", Value.null)] : Dict) "lng" = none ∧
    populate_event_locations [] [] okEnh failProv c10events [] = Except.ok c10run :=
  ⟨rfl, rfl⟩

/-- C10 (amended): `populate_event_locations` indexes `lat`/`lng`
unconditionally through the no-location check, so if any supplied record —
after the override merge — lacks the `lat` key, or has a non-null `lat`
and lacks the `lng` key, the check raises `KeyError` and the entire batch
aborts rather than degrading only that entity. (A record whose `lat` is
null never has its `lng` key touched, by `or` short-circuit: see the
counterexample.) -/
theorem C10_missing_key_aborts_amended
    (ov ar : List (String × Dict)) (enhance : Dict → Except Unit Dict)
    (provider : String → Except Unit (List Dict)) (events : List (String × Dict))
    (zs : List ℚ) (k : String) (r : Dict)
    (hm : (k, r) ∈ events) (hbad : badLoc (mergedOv ov k r)) :
    populate_event_locations ov ar enhance provider events zs = Except.error () := by
  unfold populate_event_locations
  rw [eventsGo_error_of_badLoc events k r hm hbad]

/-- C10 witness: a batch holding a record with no `lat` key aborts whole. -/
theorem C10_missing_key_aborts_amended_witness :
    (("e0", ([] : Dict)) ∈ ([("e0", ([] : Dict))] : List (String × Dict))) ∧
    badLoc (mergedOv [] "e0" []) ∧
    populate_event_locations [] [] okEnh failProv [("e0", [])] [] = Except.error () :=
  ⟨by simp, Or.inl rfl,
   C10_missing_key_aborts_amended [] [] okEnh failProv [("e0", [])] [] "e0" []
     (by simp) (Or.inl rfl)⟩

/-! ## Claim C1 -/

/-- C1, evaluated at the failing input (event `e1` unlocated, present in
the event archive at (10, 20)): the source's archive branch reads
`events.update(self.event_archive[key])` — it merges the archived location
into the batch dict, not into the event record — so the per-record step
leaves `e1`'s lat/lng null, marks it `ignore`, and flags the batch-dict
mutation; the whole call then aborts (CPython's RuntimeError for a dict
resized during iteration) instead of returning `e1` located at the
archived coordinates and unignored, as the claim (and the code's own
comment "Try to get archived location") require. -/
theorem C1_event_archive_merge_bug :
    eventStep [] c1ar okEnh failProv "e1"
      [("key", Value.str "e1"), ("lat", Value.null), ("lng", Value.null)] =
      Except.ok ([("key", Value.str "e1"), ("lat", Value.null), ("lng", Value.null),
        ("ignore", Value.bool true)], [], true) ∧
    populate_event_locations [] c1ar okEnh failProv c1events [] = Except.error () :=
  ⟨rfl, rfl⟩

/-! ## Claim C2 -/

theorem wellLocB_of_pair {r : Dict} {a b : ℚ}
    (hla : aget r "lat" = some (Value.num a)) (hlb : aget r "lng" = some (Value.num b)) :
    wellLocB r = true := by
  unfold wellLocB isNumV
  rw [hla, hlb]
  simp

theorem wellLocB_of_null {r : Dict} (hla : aget r "lat" = some Value.null)
    (hlb : aget r "lng" = some Value.null) : wellLocB r = true := by
  unfold wellLocB
  rw [hla, hlb]
  simp

theorem wellLocB_cases {r : Dict} (h : wellLocB r = true) :
    (aget r "lat" = some Value.null ∧ aget r "lng" = some Value.null) ∨
    (∃ a b : ℚ, aget r "lat" = some (Value.num a) ∧ aget r "lng" = some (Value.num b)) := by
  unfold wellLocB at h
  simp only [Bool.or_eq_true, Bool.and_eq_true, beq_iff_eq] at h
  rcases h with ⟨h1, h2⟩ | ⟨h1, h2⟩
  · exact Or.inl ⟨h1, h2⟩
  · obtain ⟨a, ha⟩ := isNumV_num h1
    obtain ⟨b, hb⟩ := isNumV_num h2
    exact Or.inr ⟨a, b, ha, hb⟩

theorem wellLocB_aupdate_full {o : Dict} (r : Dict) (h : fullLocB o = true) :
    wellLocB (aupdate r o) = true := by
  obtain ⟨hnd, hlat, hlng⟩ := fullLocB_spec h
  obtain ⟨a, ha⟩ := isNumV_num hlat
  obtain ⟨b, hb⟩ := isNumV_num hlng
  apply wellLocB_of_pair
  · rw [aget_aupdate_of_isSome o r "lat" hnd (isNumV_isSome hlat)]
    exact ha
  · rw [aget_aupdate_of_isSome o r "lng" hnd (isNumV_isSome hlng)]
    exact hb

theorem wellLocB_aupdate_UNKNOWN (r : Dict) : wellLocB (aupdate r UNKNOWN) = true :=
  wellLocB_of_null (aupdate_UNKNOWN_lat r) (aupdate_UNKNOWN_lng r)

theorem wellLocB_ainsert_ignore {e : Dict} (h : wellLocB e = true) (v : Value) :
    wellLocB (ainsert e "ignore" v) = true := by
  unfold wellLocB at h ⊢
  rw [aget_ainsert_other _ (by decide), aget_ainsert_other _ (by decide)]
  exact h

theorem geolocate_team_wellLoc {provider : String → Except Unit (List Dict)}
    {team t2 : Dict} {tr : List String}
    (hprov : ∀ addr loc rest2, provider addr = Except.ok (loc :: rest2) → fullLocB loc = true)
    (h : geolocate_team provider team = Except.ok (t2, tr)) :
    wellLocB t2 = true := by
  unfold geolocate_team at h
  cases hk : aget team "key" with
  | none => rw [hk] at h; cases h
  | some w =>
    rw [hk] at h
    dsimp only at h
    cases ha : make_team_address team with
    | none =>
      rw [ha] at h
      dsimp only at h
      have hq := Except.ok.inj h
      rw [Prod.mk.injEq] at hq
      rw [← hq.1]
      exact wellLocB_aupdate_UNKNOWN team
    | some addr =>
      rw [ha] at h
      dsimp only at h
      cases hp : provider addr with
      | error e =>
        rw [hp] at h
        dsimp only at h
        have hq := Except.ok.inj h
        rw [Prod.mk.injEq] at hq
        rw [← hq.1]
        exact wellLocB_aupdate_UNKNOWN team
      | ok rs =>
        rw [hp] at h
        cases rs with
        | nil =>
          dsimp only at h
          have hq := Except.ok.inj h
          rw [Prod.mk.injEq] at hq
          rw [← hq.1]
          exact wellLocB_aupdate_UNKNOWN team
        | cons loc rest2 =>
          dsimp only at h
          have hq := Except.ok.inj h
          rw [Prod.mk.injEq] at hq
          rw [← hq.1]
          exact wellLocB_aupdate_full team (hprov addr loc rest2 hp)

theorem geolocate_event_wellLoc {provider : String → Except Unit (List Dict)}
    {event e3 : Dict} {tr : List String}
    (hprov : ∀ addr loc rest2, provider addr = Except.ok (loc :: rest2) → fullLocB loc = true)
    (h : geolocate_event provider event = Except.ok (e3, tr)) :
    wellLocB e3 = true := by
  unfold geolocate_event at h
  cases hk : aget event "key" with
  | none => rw [hk] at h; cases h
  | some w =>
    rw [hk] at h
    dsimp only at h
    cases ha : make_event_address event with
    | none =>
      rw [ha] at h
      dsimp only at h
      have hq := Except.ok.inj h
      rw [Prod.mk.injEq] at hq
      rw [← hq.1]
      exact wellLocB_aupdate_UNKNOWN event
    | some addr =>
      rw [ha] at h
      dsimp only at h
      cases hp : provider addr with
      | error e =>
        rw [hp] at h
        dsimp only at h
        have hq := Except.ok.inj h
        rw [Prod.mk.injEq] at hq
        rw [← hq.1]
        exact wellLocB_aupdate_UNKNOWN event
      | ok rs =>
        rw [hp] at h
        cases rs with
        | nil =>
          dsimp only at h
          have hq := Except.ok.inj h
          rw [Prod.mk.injEq] at hq
          rw [← hq.1]
          exact wellLocB_aupdate_UNKNOWN event
        | cons loc rest2 =>
          dsimp only at h
          have hq := Except.ok.inj h
          rw [Prod.mk.injEq] at hq
          rw [← hq.1]
          exact wellLocB_aupdate_full event (hprov addr loc rest2 hp)

theorem resolve_team_wellLoc {ov ar : List (String × Dict)}
    {provider : String → Except Unit (List Dict)} {kt p : String × Dict} {tr : List String}
    (hov : ov.all (fun ko => fullLocB ko.2) = true)
    (har : ar.all (fun ko => fullLocB ko.2) = true)
    (hprov : ∀ addr loc rest2, provider addr = Except.ok (loc :: rest2) → fullLocB loc = true)
    (h : resolve_team ov ar provider kt = Except.ok (p, tr)) :
    wellLocB p.2 = true := by
  unfold resolve_team at h
  cases ho : aget ov kt.1 with
  | some o =>
    rw [ho] at h
    dsimp only at h
    have hq := Except.ok.inj h
    rw [Prod.mk.injEq] at hq
    rw [← hq.1]
    exact wellLocB_aupdate_full kt.2 (List.all_eq_true.mp hov _ (aget_some_mem ov kt.1 o ho))
  | none =>
    rw [ho] at h
    dsimp only at h
    cases ha : aget ar kt.1 with
    | some a =>
      rw [ha] at h
      dsimp only at h
      have hq := Except.ok.inj h
      rw [Prod.mk.injEq] at hq
      rw [← hq.1]
      exact wellLocB_aupdate_full kt.2 (List.all_eq_true.mp har _ (aget_some_mem ar kt.1 a ha))
    | none =>
      rw [ha] at h
      dsimp only at h
      cases hg : geolocate_team provider kt.2 with
      | error e => rw [hg] at h; cases h
      | ok pq =>
        rw [hg] at h
        obtain ⟨t2, tr2⟩ := pq
        dsimp only at h
        have hq := Except.ok.inj h
        rw [Prod.mk.injEq] at hq
        have h1 := hq.1
        rw [Prod.mk.injEq] at h1
        rw [← h1.2]
        exact geolocate_team_wellLoc hprov hg

theorem dedup_wellLoc {batch : List (String × Dict)} {zs : List ℚ}
    {out : List (String × Dict) × List String × List ℚ}
    (hall : ∀ kr ∈ batch, wellLocB kr.2 = true)
    (h : dedup_locations batch zs = Except.ok out) :
    ∀ kr ∈ out.1, wellLocB kr.2 = true := by
  have hbase : ∀ p : Value × Value,
      (aget ([] : List ((Value × Value) × String)) p).isSome = true ↔
        p ∈ ([] : List (Value × Value)) := by
    intro p
    simp [aget]
  obtain ⟨hm, hp, hu, hc⟩ := dedupGo_spec batch [] [] zs out hbase h
  intro kr hmem
  obtain ⟨i, hi⟩ := List.getElem?_of_mem hmem
  have hlen : out.1.length = batch.length := by
    have := congrArg List.length hm
    simpa using this
  have hib : i < batch.length := by
    rw [← hlen]
    exact List.getElem?_eq_some.mp hi |>.choose
  obtain ⟨kr0, hkr0⟩ : ∃ kr0, batch[i]? = some kr0 :=
    ⟨batch[i], List.getElem?_eq_getElem hib⟩
  cases hcb : collideB [] batch i with
  | false =>
    have hsame := hu i hcb
    rw [hi, hkr0] at hsame
    have : kr = kr0 := Option.some.inj hsame
    subst this
    exact hall kr (List.getElem?_mem hkr0)
  | true =>
    obtain ⟨la, ln, z1, z2, _, _, hout⟩ := hc i kr0 hkr0 hcb
    rw [hi] at hout
    have hkr : kr = (kr0.1,
        ainsert (ainsert kr0.2 "lat" (Value.num (gauss la sigma z1)))
          "lng" (Value.num (gauss ln sigma z2))) := Option.some.inj hout
    subst hkr
    apply wellLocB_of_pair
    · rw [aget_ainsert_other _ (by decide), aget_ainsert_self]
    · rw [aget_ainsert_self]

theorem eventResolve_wellLoc {ar : List (String × Dict)} {enhance : Dict → Except Unit Dict}
    {provider : String → Except Unit (List Dict)} {k : String} {event : Dict}
    (hprov : ∀ addr loc rest2, provider addr = Except.ok (loc :: rest2) → fullLocB loc = true)
    (henh : ∀ e e2, enhance e = Except.ok e2 →
      aget e2 "lat" = aget e "lat" ∧ aget e2 "lng" = aget e "lng")
    (hwell : wellLocB event = true) :
    wellLocB (eventResolve ar enhance provider k event).1 = true := by
  unfold eventResolve
  cases ha : aget ar k with
  | some a => exact hwell
  | none =>
    dsimp only
    cases ho : aget event "is_official" with
    | none => exact hwell
    | some v =>
      dsimp only
      by_cases ht : truthy v
      · rw [if_pos ht]
        cases he : enhance event with
        | error e => exact hwell
        | ok e2 =>
          dsimp only
          have hw2 : wellLocB e2 = true := by
            unfold wellLocB at hwell ⊢
            rw [(henh event e2 he).1, (henh event e2 he).2]
            exact hwell
          cases hg : geolocate_event provider e2 with
          | error e => exact hw2
          | ok pq =>
            obtain ⟨e3, tr⟩ := pq
            exact geolocate_event_wellLoc hprov hg
      · rw [if_neg ht]
        exact hwell

theorem eventStep_wellLoc {ov ar : List (String × Dict)} {enhance : Dict → Except Unit Dict}
    {provider : String → Except Unit (List Dict)} {k : String} {event0 e2 : Dict}
    {tr : List String} {dirty : Bool}
    (hov : ov.all (fun ko => fullLocB ko.2) = true)
    (hprov : ∀ addr loc rest2, provider addr = Except.ok (loc :: rest2) → fullLocB loc = true)
    (henh : ∀ e e2, enhance e = Except.ok e2 →
      aget e2 "lat" = aget e "lat" ∧ aget e2 "lng" = aget e "lng")
    (hinit : wellLocB event0 = true)
    (h : eventStep ov ar enhance provider k event0 = Except.ok (e2, tr, dirty)) :
    wellLocB e2 = true := by
  have hm : wellLocB (mergedOv ov k event0) = true := by
    unfold mergedOv
    cases ho : aget ov k with
    | some o =>
      exact wellLocB_aupdate_full event0 (List.all_eq_true.mp hov _ (aget_some_mem ov k o ho))
    | none => exact hinit
  unfold eventStep at h
  dsimp only at h
  cases hn : noloc (mergedOv ov k event0) with
  | error e => rw [hn] at h; cases h
  | ok b =>
    rw [hn] at h
    cases b with
    | false =>
      dsimp only at h
      have hq := Except.ok.inj h
      rw [Prod.mk.injEq] at hq
      rw [← hq.1]
      exact hm
    | true =>
      dsimp only at h
      have hres := @eventResolve_wellLoc ar enhance provider k (mergedOv ov k event0) hprov henh hm
      cases hev : eventResolve ar enhance provider k (mergedOv ov k event0) with
      | mk e2' pr =>
        obtain ⟨tr', dirty'⟩ := pr
        rw [hev] at h hres
        dsimp only at h hres
        cases hn2 : noloc e2' with
        | error e => rw [hn2] at h; cases h
        | ok b2 =>
          rw [hn2] at h
          cases b2 with
          | true =>
            dsimp only at h
            have hq := Except.ok.inj h
            rw [Prod.mk.injEq] at hq
            rw [← hq.1]
            exact wellLocB_ainsert_ignore hres _
          | false =>
            dsimp only at h
            have hq := Except.ok.inj h
            rw [Prod.mk.injEq] at hq
            rw [← hq.1]
            exact hres

/-- C2 counterexample, refuting the claim as stated: with the
caller-supplied override map holding only a `lat` field for `t1`, the run
succeeds and `t1`'s final record is half-filled — numeric `lat`, null
`lng` — violating the full-or-null invariant. -/
theorem C2_counterexample :
    populate_team_locations c2ov [] failProv c2teams 2024 [] = Except.ok c2run ∧
    aget c2run.teams "t1" =
      some [("key", Value.str "t1"), ("lat", Value.num 10), ("lng", Value.null)] ∧
    wellLocB [("key", Value.str "t1"), ("lat", Value.num 10), ("lng", Value.null)] = false :=
  ⟨rfl, rfl, rfl⟩

/-- C2 (amended): for every entity of a successful
`populate_team_locations` or `populate_event_locations` run, the final
record's location is either fully null or fully numeric — never a
half-filled pair — provided the caller-supplied override map (and, for
teams, the archive) contains only full numeric location pairs, the
provider returns full location dicts, the enrichment collaborator leaves
`lat`/`lng` untouched, and (for events) the supplied records start
full-or-null. A partial override breaks the invariant: see the
counterexample. -/
theorem C2_full_or_null_amended :
    (∀ (ov ar : List (String × Dict)) (provider : String → Except Unit (List Dict))
      (teams : List (String × Dict)) (year : ℕ) (zs : List ℚ) (R : TeamRun),
      ov.all (fun ko => fullLocB ko.2) = true →
      ar.all (fun ko => fullLocB ko.2) = true →
      (∀ addr loc rest2, provider addr = Except.ok (loc :: rest2) → fullLocB loc = true) →
      populate_team_locations ov ar provider teams year zs = Except.ok R →
      ∀ kr ∈ R.teams, wellLocB kr.2 = true) ∧
    (∀ (ov ar : List (String × Dict)) (enhance : Dict → Except Unit Dict)
      (provider : String → Except Unit (List Dict)) (events : List (String × Dict))
      (zs : List ℚ) (R : EventRun),
      ov.all (fun ko => fullLocB ko.2) = true →
      (∀ addr loc rest2, provider addr = Except.ok (loc :: rest2) → fullLocB loc = true) →
      (∀ e e2, enhance e = Except.ok e2 →
        aget e2 "lat" = aget e "lat" ∧ aget e2 "lng" = aget e "lng") →
      events.all (fun ke => wellLocB ke.2) = true →
      populate_event_locations ov ar enhance provider events zs = Except.ok R →
      ∀ kr ∈ R.events, wellLocB kr.2 = true) := by
  constructor
  · intro ov ar provider teams year zs R hov har hprov h
    obtain ⟨resolved, per, zs2, h1, h2, h3, _, _, _⟩ := populate_team_ok h
    obtain ⟨hmap, htr, hpos⟩ := resolve_teams_ok teams resolved R.trace h1
    have hres : ∀ kr ∈ resolved, wellLocB kr.2 = true := by
      intro kr hmem
      obtain ⟨i, hi⟩ := List.getElem?_of_mem hmem
      have hlen : resolved.length = teams.length := by
        have := congrArg List.length hmap
        simpa using this
      have hit : i < teams.length := by
        rw [← hlen]
        exact List.getElem?_eq_some.mp hi |>.choose
      obtain ⟨kt, hkt⟩ : ∃ kt, teams[i]? = some kt :=
        ⟨teams[i], List.getElem?_eq_getElem hit⟩
      obtain ⟨r, tr2, hresi, hstep⟩ := hpos i kt hkt
      rw [hi] at hresi
      have : kr = (kt.1, r) := Option.some.inj hresi
      subst this
      exact resolve_team_wellLoc hov har hprov hstep
    exact dedup_wellLoc hres h2
  · intro ov ar enhance provider events zs R hov hprov henh hinit h
    obtain ⟨resolved, per, zs2, h1, h2, h3, _, _, _⟩ := populate_event_ok h
    obtain ⟨hmap, hpos⟩ := eventsGo_ok events resolved R.trace h1
    have hres : ∀ kr ∈ resolved, wellLocB kr.2 = true := by
      intro kr hmem
      obtain ⟨i, hi⟩ := List.getElem?_of_mem hmem
      have hlen : resolved.length = events.length := by
        have := congrArg List.length hmap
        simpa using this
      have hit : i < events.length := by
        rw [← hlen]
        exact List.getElem?_eq_some.mp hi |>.choose
      obtain ⟨ke, hke⟩ : ∃ ke, events[i]? = some ke :=
        ⟨events[i], List.getElem?_eq_getElem hit⟩
      obtain ⟨e2, tr2, hstep, hresi⟩ := hpos i ke hke
      rw [hi] at hresi
      have : kr = (ke.1, e2) := Option.some.inj hresi
      subst this
      exact eventStep_wellLoc hov hprov henh
        (List.all_eq_true.mp hinit ke (List.getElem?_mem hke)) hstep
    exact dedup_wellLoc hres h3

/-- C2 witness: both pipelines instantiated on concrete well-shaped inputs
yield records satisfying the full-or-null invariant. -/
theorem C2_full_or_null_amended_witness :
    populate_team_locations c2wov [] failProv c2wteams 2024 [] = Except.ok c2wrun ∧
    (∀ kr ∈ c2wrun.teams, wellLocB kr.2 = true) ∧
    populate_event_locations [] [] okEnh failProv c2wevents [] = Except.ok c2werun ∧
    (∀ kr ∈ c2werun.events, wellLocB kr.2 = true) :=
  ⟨rfl,
   C2_full_or_null_amended.1 c2wov [] failProv c2wteams 2024 [] c2wrun
     (by decide) (by decide)
     (fun addr loc rest2 hc => Except.noConfusion hc) rfl,
   rfl,
   C2_full_or_null_amended.2 [] [] okEnh failProv c2wevents [] c2werun
     (by decide)
     (fun addr loc rest2 hc => Except.noConfusion hc)
     (fun e e2 he => by cases Except.ok.inj he; exact ⟨rfl, rfl⟩)
     (by decide) rfl⟩

/-! ## Claim C6 -/

theorem read_none_or_null {d : Dict} {k : String}
    (h : aget d k = none ∨ aget d k = some Value.null) : read d k = "" := by
  rcases h with h | h <;> simp [read, h, notNone, valueText]

theorem read_ainsert_null (d : Dict) (k k2 : String) :
    read (ainsert d k Value.null) k2 = if k2 = k then "" else read d k2 := by
  unfold read
  rw [aget_ainsert]
  by_cases h : k2 = k
  · simp [h, notNone, valueText]
  · simp [h]

theorem aget_filter_key {α : Type} (p : String → Bool) :
    ∀ (l : List (String × α)) (k : String),
      aget (l.filter (fun kv => p kv.1)) k = if p k = true then aget l k else none := by
  intro l
  induction l with
  | nil =>
    intro k
    by_cases h : p k = true <;> simp [aget, h]
  | cons kv rest ih =>
    intro k
    obtain ⟨k0, v0⟩ := kv
    by_cases hp : p k0 = true
    · rw [List.filter_cons_of_pos (by simpa using hp)]
      by_cases hk : k0 = k
      · subst hk
        simp [aget, hp]
      · simp [aget, hk, ih]
    · rw [List.filter_cons_of_neg (by simpa using hp)]
      rw [ih]
      by_cases hk : k0 = k
      · subst hk
        simp [aget, hp]
      · simp [aget, hk]

theorem read_eraseKey (d : Dict) (k k2 : String) :
    read (eraseKey d k) k2 = if k2 = k then "" else read d k2 := by
  unfold read eraseKey
  rw [aget_filter_key (fun s => s != k) d k2]
  by_cases h : k2 = k
  · simp [h]
  · simp [h]

theorem read_insert_null_eq_erase (d : Dict) (k k2 : String) :
    read (ainsert d k Value.null) k2 = read (eraseKey d k) k2 := by
  rw [read_ainsert_null, read_eraseKey]

/-- C6 counterexample, refuting the claim as stated: with a present venue,
an absent street address and a present city, `make_event_address` yields
`"V  C"` — the empty middle field leaves a repeated separator, differing
from the whitespace-normalized `"V C"` (only the ends are stripped). -/
theorem C6_counterexample :
    make_event_address c6d = some "V  C" ∧
    joinSp (pySplitWs "V  C") = "V C" ∧
    "V  C" ≠ "V C" :=
  ⟨by decide, by decide, by decide⟩

/-- C6 (amended): `make_event_address` joins the six fields `venue,
address, city, state_prov, postal_code, country` with single spaces, each
field read as the empty string when the key is absent or its value null
(never throwing — absence and null are interchangeable), trims whitespace
from the ends only, and returns null exactly when the trimmed result is
empty; empty fields can leave repeated interior separators (whitespace
between fields is not collapsed — see the counterexample). -/
theorem C6_event_address_amended :
    (∀ (d : Dict) (k : String),
      (aget d k = none ∨ aget d k = some Value.null) → read d k = "") ∧
    (∀ (d : Dict) (s : String), make_event_address d = some s →
      s = pyStrip (joinSp [read d "venue", read d "address", read d "city",
        read d "state_prov", read d "postal_code", read d "country"]) ∧ s ≠ "") ∧
    (∀ d : Dict, make_event_address d = none ↔
      pyStrip (joinSp [read d "venue", read d "address", read d "city",
        read d "state_prov", read d "postal_code", read d "country"]) = "") ∧
    (∀ (d : Dict) (k : String),
      make_event_address (ainsert d k Value.null) = make_event_address (eraseKey d k)) := by
  refine ⟨fun d k h => read_none_or_null h, ?_, ?_, ?_⟩
  · intro d s h
    unfold make_event_address at h
    by_cases hc : pyStrip (joinSp [read d "venue", read d "address", read d "city",
        read d "state_prov", read d "postal_code", read d "country"]) = ""
    · rw [if_pos hc] at h
      cases h
    · rw [if_neg hc] at h
      have := Option.some.inj h
      subst this
      exact ⟨rfl, hc⟩
  · intro d
    unfold make_event_address
    by_cases hc : pyStrip (joinSp [read d "venue", read d "address", read d "city",
        read d "state_prov", read d "postal_code", read d "country"]) = ""
    · simp [hc]
    · simp [hc]
  · intro d k
    unfold make_event_address
    rw [read_insert_null_eq_erase d k "venue", read_insert_null_eq_erase d k "address",
      read_insert_null_eq_erase d k "city", read_insert_null_eq_erase d k "state_prov",
      read_insert_null_eq_erase d k "postal_code", read_insert_null_eq_erase d k "country"]

/-- C6 witness: the amended statement instantiated on concrete records. -/
theorem C6_event_address_amended_witness :
    read ([("venue", Value.null)] : Dict) "venue" = "" ∧
    ("V  C" = pyStrip (joinSp [read c6d "venue", read c6d "address", read c6d "city",
      read c6d "state_prov", read c6d "postal_code", read c6d "country"]) ∧ "V  C" ≠ "") ∧
    make_event_address (ainsert c6d "city" Value.null) = make_event_address (eraseKey c6d "city") :=
  ⟨C6_event_address_amended.1 [("venue", Value.null)] "venue" (Or.inr rfl),
   C6_event_address_amended.2.1 c6d "V  C" (by decide),
   C6_event_address_amended.2.2.2 c6d "city"⟩

/-! ## Claim C7 -/

theorem save_archive_data_ok :
    ∀ (entities out : List (String × Dict)),
      save_archive_data entities = Except.ok out →
      out = entities.filterMap (fun kr =>
        match noloc kr.2 with
        | Except.ok false => some (kr.1, projectLoc kr.2)
        | _ => none) := by
  intro entities
  induction entities with
  | nil =>
    intro out h
    simp only [save_archive_data] at h
    rw [← Except.ok.inj h]
    rfl
  | cons kv rest ih =>
    intro out h
    obtain ⟨k, v⟩ := kv
    simp only [save_archive_data] at h
    cases hn : noloc v with
    | error e => rw [hn] at h; cases h
    | ok nl =>
      rw [hn] at h
      dsimp only at h
      cases hrec : save_archive_data rest with
      | error e => rw [hrec] at h; cases h
      | ok rest2 =>
        rw [hrec] at h
        dsimp only at h
        have hq := (Except.ok.inj h).symm
        subst hq
        rw [List.filterMap_cons]
        cases nl with
        | true => simp [hn, ih rest2 hrec]
        | false => simp [hn, ih rest2 hrec]

/-- C7: the saved archive payload holds exactly the entities whose record
passes the non-UNKNOWN check — both `lat` and `lng` present and non-null —
in batch order, each projected to just its `lat`/`lng` fields; the team
and event writers differ only in the file name they attach. -/
theorem C7_archive_filter_projection :
    (∀ (entities out : List (String × Dict)),
      save_archive_data entities = Except.ok out →
      out = entities.filterMap (fun kr =>
        match noloc kr.2 with
        | Except.ok false => some (kr.1, projectLoc kr.2)
        | _ => none)) ∧
    (∀ r : Dict, noloc r = Except.ok false ↔
      ∃ a b, aget r "lat" = some a ∧ a ≠ Value.null ∧
        aget r "lng" = some b ∧ b ≠ Value.null) ∧
    (∀ (r : Dict) (k2 : String),
      aget (projectLoc r) k2 = if k2 = "lat" ∨ k2 = "lng" then aget r k2 else none) ∧
    (∀ (teams : List (String × Dict)) (year : ℕ) (out : String × List (String × Dict)),
      save_team_archive teams year = Except.ok out →
      out.1 = team_archive_name year ∧ save_archive_data teams = Except.ok out.2) ∧
    (∀ (events : List (String × Dict)) (out : String × List (String × Dict)),
      save_event_archive events = Except.ok out →
      out.1 = event_archive_name ∧ save_archive_data events = Except.ok out.2) := by
  refine ⟨save_archive_data_ok, fun r => noloc_false_iff, ?_, ?_, ?_⟩
  · intro r k2
    unfold projectLoc
    rw [aget_filter_key (fun s => s == "lat" || s == "lng") r k2]
    by_cases h : k2 = "lat" ∨ k2 = "lng"
    · rw [if_pos h, if_pos]
      simpa using h
    · rw [if_neg h, if_neg]
      simpa using h
  · intro teams year out h
    unfold save_team_archive at h
    cases hs : save_archive_data teams with
    | error e => rw [hs] at h; cases h
    | ok d =>
      rw [hs] at h
      have hq := (Except.ok.inj h).symm
      subst hq
      exact ⟨rfl, rfl⟩
  · intro events out h
    unfold save_event_archive at h
    cases hs : save_archive_data events with
    | error e => rw [hs] at h; cases h
    | ok d =>
      rw [hs] at h
      have hq := (Except.ok.inj h).symm
      subst hq
      exact ⟨rfl, rfl⟩

/-- C7 witness: the located entity is projected to lat/lng, the UNKNOWN
one is dropped, and the team writer attaches the year-stamped name. -/
theorem C7_archive_filter_projection_witness :
    save_archive_data c7entities = Except.ok c7saved ∧
    c7saved = c7entities.filterMap (fun kr =>
      match noloc kr.2 with
      | Except.ok false => some (kr.1, projectLoc kr.2)
      | _ => none) ∧
    save_team_archive c7entities 2024 = Except.ok ("all_team_locations_2024.json", c7saved) ∧
    ("all_team_locations_2024.json",
      c7saved).1 = team_archive_name 2024 ∧
    save_archive_data c7entities =
      Except.ok ("all_team_locations_2024.json", c7saved).2 :=
  ⟨rfl,
   C7_archive_filter_projection.1 c7entities c7saved rfl,
   rfl,
   (C7_archive_filter_projection.2.2.2.1 c7entities 2024
     ("all_team_locations_2024.json", c7saved) rfl).1,
   (C7_archive_filter_projection.2.2.2.1 c7entities 2024
     ("all_team_locations_2024.json", c7saved) rfl).2⟩

/-! ## Claim C8 -/

theorem ainsert_keys {κ α : Type} [DecidableEq κ] :
    ∀ (l : List (κ × α)) (k k2 : κ) (v : α),
      k2 ∈ (ainsert l k v).map Prod.fst ↔ k2 = k ∨ k2 ∈ l.map Prod.fst := by
  intro l
  induction l with
  | nil =>
    intro k k2 v
    simp [ainsert]
  | cons kv rest ih =>
    intro k k2 v
    obtain ⟨k0, v0⟩ := kv
    by_cases h0 : k0 = k
    · subst h0
      have hins : ainsert ((k0, v0) :: rest) k0 v = (k0, v) :: rest := by
        simp [ainsert]
      rw [hins]
      simp only [List.map_cons, List.mem_cons]
      tauto
    · simp only [ainsert, if_neg h0, List.map_cons, List.mem_cons, ih]
      tauto

theorem archiveYears_go_none :
    ∀ (files : List (String × List (String × Dict)))
      (acc : List (ℕ × List (String × Dict))),
      (∀ f ∈ files, parse_team_archive_name f.1 = none) →
      files.foldl (fun acc fc =>
        match parse_team_archive_name fc.1 with
        | some y2 => ainsert acc y2 fc.2
        | none => acc) acc = acc := by
  intro files
  induction files with
  | nil => intro acc _; rfl
  | cons fc rest ih =>
    intro acc hall
    rw [List.foldl_cons]
    have hp : parse_team_archive_name fc.1 = none := hall fc (List.mem_cons_self fc rest)
    rw [hp]
    exact ih acc (fun f hf => hall f (List.mem_cons_of_mem _ hf))

theorem archiveYears_go_keys :
    ∀ (files : List (String × List (String × Dict)))
      (acc : List (ℕ × List (String × Dict))) (y : ℕ),
      (y ∈ (files.foldl (fun acc fc =>
        match parse_team_archive_name fc.1 with
        | some y2 => ainsert acc y2 fc.2
        | none => acc) acc).map Prod.fst) ↔
      (y ∈ acc.map Prod.fst ∨ ∃ f ∈ files, parse_team_archive_name f.1 = some y) := by
  intro files
  induction files with
  | nil =>
    intro acc y
    simp
  | cons fc rest ih =>
    intro acc y
    rw [List.foldl_cons]
    cases hp : parse_team_archive_name fc.1 with
    | none =>
      dsimp only
      rw [ih]
      constructor
      · rintro (h | ⟨f, hf, hpf⟩)
        · exact Or.inl h
        · exact Or.inr ⟨f, List.mem_cons_of_mem _ hf, hpf⟩
      · rintro (h | ⟨f, hf, hpf⟩)
        · exact Or.inl h
        · rcases List.mem_cons.mp hf with hfe | hf
          · rw [hfe, hp] at hpf
            cases hpf
          · exact Or.inr ⟨f, hf, hpf⟩
    | some y2 =>
      dsimp only
      rw [ih, ainsert_keys]
      constructor
      · rintro ((he | h) | ⟨f, hf, hpf⟩)
        · subst he
          exact Or.inr ⟨fc, List.mem_cons_self fc rest, hp⟩
        · exact Or.inl h
        · exact Or.inr ⟨f, List.mem_cons_of_mem _ hf, hpf⟩
      · rintro (h | ⟨f, hf, hpf⟩)
        · exact Or.inl (Or.inr h)
        · rcases List.mem_cons.mp hf with hfe | hf
          · rw [hfe, hp] at hpf
            exact Or.inl (Or.inl (Option.some.inj hpf).symm)
          · exact Or.inr ⟨f, hf, hpf⟩

theorem archiveYears_go_aget :
    ∀ (files : List (String × List (String × Dict)))
      (acc : List (ℕ × List (String × Dict))) (y : ℕ) (c : List (String × Dict)),
      aget (files.foldl (fun acc fc =>
        match parse_team_archive_name fc.1 with
        | some y2 => ainsert acc y2 fc.2
        | none => acc) acc) y = some c →
      aget acc y = some c ∨
        ∃ f ∈ files, parse_team_archive_name f.1 = some y ∧ f.2 = c := by
  intro files
  induction files with
  | nil =>
    intro acc y c h
    exact Or.inl h
  | cons fc rest ih =>
    intro acc y c h
    rw [List.foldl_cons] at h
    cases hp : parse_team_archive_name fc.1 with
    | none =>
      rw [hp] at h
      rcases ih _ y c h with h2 | ⟨f, hf, hpf, hfc⟩
      · exact Or.inl h2
      · exact Or.inr ⟨f, List.mem_cons_of_mem _ hf, hpf, hfc⟩
    | some y2 =>
      rw [hp] at h
      rcases ih _ y c h with h2 | ⟨f, hf, hpf, hfc⟩
      · rw [aget_ainsert] at h2
        by_cases hy : y = y2
        · rw [if_pos hy] at h2
          refine Or.inr ⟨fc, List.mem_cons_self fc rest, ?_, Option.some.inj h2⟩
          rw [hp, hy]
        · rw [if_neg hy] at h2
          exact Or.inl h2
      · exact Or.inr ⟨f, List.mem_cons_of_mem _ hf, hpf, hfc⟩

/-- C8: `__read_team_archive` scans the listing for names matching the
year-stamped pattern and loads the content of a file carrying the maximum
parsed year (every other matching file's year is no larger); with zero
matching names it returns the empty archive without error. On the
concrete listing with 2021 and 2022 files it selects 2022's content. -/
theorem C8_load_latest_year :
    (∀ files : List (String × List (String × Dict)),
      (∀ f ∈ files, parse_team_archive_name f.1 = none) →
      read_team_archive files = []) ∧
    (∀ (files : List (String × List (String × Dict)))
      (f0 : String × List (String × Dict)) (y0 : ℕ),
      f0 ∈ files → parse_team_archive_name f0.1 = some y0 →
      ∃ g ymax, g ∈ files ∧ parse_team_archive_name g.1 = some ymax ∧
        read_team_archive files = g.2 ∧
        ∀ (h2 : String × List (String × Dict)) (yh : ℕ), h2 ∈ files →
          parse_team_archive_name h2.1 = some yh → yh ≤ ymax) ∧
    read_team_archive c8files = c8b ∧
    read_team_archive c8none = [] := by
  have harch : ∀ files, archiveYears files = files.foldl (fun acc fc =>
      match parse_team_archive_name fc.1 with
      | some y2 => ainsert acc y2 fc.2
      | none => acc) [] := fun _ => rfl
  refine ⟨?_, ?_, by decide, by decide⟩
  · intro files hall
    unfold read_team_archive
    rw [harch, archiveYears_go_none files [] hall]
    rfl
  · intro files f0 y0 hf0 hp0
    have hy0 : y0 ∈ (archiveYears files).map Prod.fst := by
      rw [harch]
      exact (archiveYears_go_keys files [] y0).mpr (Or.inr ⟨f0, hf0, hp0⟩)
    cases hmax : ((archiveYears files).map Prod.fst).max? with
    | none =>
      have : (archiveYears files).map Prod.fst = [] := List.max?_eq_none_iff.mp hmax
      rw [this] at hy0
      simp at hy0
    | some ymax =>
      obtain ⟨hmem, hbound⟩ := List.max?_eq_some_iff'.mp hmax
      have hsome : (aget (archiveYears files) ymax).isSome = true :=
        (aget_isSome_iff_mem_keys (archiveYears files) ymax).mpr hmem
      obtain ⟨c, hc⟩ := Option.isSome_iff_exists.mp hsome
      have hprov := archiveYears_go_aget files [] ymax c (by rw [← harch]; exact hc)
      rcases hprov with h2 | ⟨g, hg, hpg, hgc⟩
      · simp [aget] at h2
      · refine ⟨g, ymax, hg, hpg, ?_, ?_⟩
        · unfold read_team_archive
          dsimp only
          rw [hmax]
          dsimp only
          rw [hc]
          exact hgc.symm
        · intro h2 yh hh2 hph
          exact hbound yh ((archiveYears_go_keys files [] yh).mpr (Or.inr ⟨h2, hh2, hph⟩))

/-- C8 witness: the maximum-year selection instantiated on the concrete
2021/2022 listing, plus the empty case. -/
theorem C8_load_latest_year_witness :
    (∀ f ∈ c8none, parse_team_archive_name f.1 = none) ∧
    read_team_archive c8none = [] ∧
    (("all_team_locations_2021.json", c8a) ∈ c8files ∧
     parse_team_archive_name "all_team_locations_2021.json" = some 2021) ∧
    (∃ g ymax, g ∈ c8files ∧ parse_team_archive_name g.1 = some ymax ∧
      read_team_archive c8files = g.2 ∧
      ∀ (h2 : String × List (String × Dict)) (yh : ℕ), h2 ∈ c8files →
        parse_team_archive_name h2.1 = some yh → yh ≤ ymax) :=
  ⟨by decide, C8_load_latest_year.1 c8none (by decide), ⟨by decide, by decide⟩,
   C8_load_latest_year.2.1 c8files ("all_team_locations_2021.json", c8a) 2021
     (by decide) (by decide)⟩

end FrcMap
